import Mathlib

/-!
Verification development for the coro header library (wc-duck/coro, src/coro.h):
protothread-style coroutines with a caller-supplied stack buffer used for
persistent locals, copied arguments and nested sub-calls.

The embedding models the byte buffer as a function from absolute addresses
(natural numbers) to byte values, call-state records placed on the stack as a
map from stack offsets to records, and a coroutine body as a deep-embedded
list of statements; the resumption-point ids that the header derives from
line numbers are modelled as statement indices (opaque, unique, increasing in
source order, exactly as the design requires).  The transient userdata pointer
is an opaque value that no claim observes and is not modelled.  CORO_ASSERT is
modelled by returning none (the assertion halts the program).
-/

/-- CORO_STATE_CREATED from the enum in coro.h: documented as the id of a
coroutine that has been initialized but never resumed. -/
def CORO_STATE_CREATED : Int := -1

/-- CORO_STATE_COMPLETED from the enum in coro.h: terminal resumption-point id. -/
def CORO_STATE_COMPLETED : Int := -2

/-- Sentinel 0xFFFFFFFF used by coro.h for the sub_call / call_locals /
call_args offsets meaning none / uninitialized. -/
def CO_OFFSET_NONE : Nat := 0xFFFFFFFF

/-- The locals declaration of a coroutine body (co_locals_begin/co_locals_end):
size and alignment of the aggregate and its default-constructed byte contents. -/
structure LocalsDecl where
  size : Nat
  align : Nat
  initByte : Nat → Nat

/-- Deep-embedded statement of a coroutine body.  A body is a List Stmt; the
statement at index i has resumption-point id i+1 (ids are opaque, unique and
increasing in source order, as the line-number ids of coro.h are).
store writes one byte into the activation's locals block.
scall is co_call with the sub-coroutine's locals declaration, body, and an
optional argument given as its bytes plus an alignment. -/
inductive Stmt where
  | syield : Stmt
  | swait : Stmt
  | sexit : Stmt
  | store (off val : Nat) : Stmt
  | scall (subLocals : Option LocalsDecl) (subBody : List Stmt)
      (arg : Option (List Nat × Nat)) : Stmt

/-- struct _coro_call_state of coro.h.  func is represented by the coroutine
function's locals declaration and body; the root back-pointer is implicit
(the interpreter threads the root explicitly).  sub_call, call_locals and
call_args are uint32 offsets from the stack base, CO_OFFSET_NONE = absent. -/
structure CallState where
  func_locals : Option LocalsDecl
  func_body : List Stmt
  state : Int
  sub_call : Nat
  call_locals : Nat
  call_args : Nat

/-- struct coro of coro.h.  stack is the absolute base address of the
caller-supplied buffer (0 models a null stack pointer), stack_top the absolute
high-water mark, mem the byte contents of memory, and frames the call-state
records that co_call places on the stack, keyed by their stack offset. -/
structure Coro where
  call : CallState
  waiting : Bool
  stack_size : Nat
  stack_top : Nat
  stack : Nat
  mem : Nat → Nat
  frames : Nat → Option CallState

/-- Pointer alignment as computed in _co_stack_alloc:
((uintptr_t)stack_top + ((uintptr_t)align - 1)) & ~((uintptr_t)align - 1)
in 64-bit arithmetic; the complement of align-1 in 64 bits is
(2^64 - 1) - (align - 1).  Every call site passes align >= 1. -/
def _co_align_up (top align : Nat) : Nat :=
  ((top + (align - 1)) % 2 ^ 64) &&& ((2 ^ 64 - 1) - (align - 1))

/-- _co_stack_alloc of coro.h: aligns the high-water mark up, advances it by
size, and asserts that the new mark does not exceed the buffer
(CORO_ASSERT modelled as none). -/
def _co_stack_alloc (co : Coro) (size align : Nat) : Option (Nat × Coro) :=
  let ptr := _co_align_up co.stack_top align
  if ptr + size ≤ co.stack + co.stack_size then
    some (ptr, { co with stack_top := ptr + size })
  else
    none

/-- _co_stack_rewind of coro.h: asserts ptr is inside
[stack, stack + stack_size) and resets the high-water mark to ptr. -/
def _co_stack_rewind (co : Coro) (ptr : Nat) : Option Coro :=
  if co.stack ≤ ptr ∧ ptr < co.stack + co.stack_size then
    some { co with stack_top := ptr }
  else
    none

/-- _co_ptr_to_stack_offset of coro.h: (uint32_t)(ptr - stack). -/
def _co_ptr_to_stack_offset (co : Coro) (ptr : Nat) : Nat :=
  (ptr - co.stack) % 2 ^ 32

/-- _co_stack_offset_to_ptr of coro.h: stack + offset, 64-bit pointer
arithmetic. -/
def _co_stack_offset_to_ptr (co : Coro) (offset : Nat) : Nat :=
  (co.stack + offset) % 2 ^ 64

/-- memcpy into the modelled byte memory. -/
def memcpyBytes (mem : Nat → Nat) (dst : Nat) (src : List Nat) : Nat → Nat :=
  fun a => if dst ≤ a ∧ a < dst + src.length then src.getD (a - dst) 0 else mem a

/-- _co_init_call_state of coro.h: fills in a fresh call-state (state 0, all
offsets at the sentinel) and, when an argument is given, asserts the stack is
non-null, allocates the argument block and memcpys the bytes into it. -/
def _co_init_call_state (co : Coro) (fl : Option LocalsDecl) (fb : List Stmt)
    (arg : Option (List Nat × Nat)) : Option (CallState × Coro) :=
  let cs : CallState :=
    { func_locals := fl, func_body := fb, state := 0,
      sub_call := CO_OFFSET_NONE, call_locals := CO_OFFSET_NONE,
      call_args := CO_OFFSET_NONE }
  match arg with
  | none => some (cs, co)
  | some (bytes, al) =>
    if co.stack = 0 then
      none
    else
      match _co_stack_alloc co bytes.length al with
      | none => none
      | some (p, co1) =>
        let co2 := { co1 with mem := memcpyBytes co1.mem p bytes }
        some ({ cs with call_args := _co_ptr_to_stack_offset co2 p }, co2)

/-- co_init of coro.h: sets up the root coro over the given buffer (stack_top
starts at the base) and initializes the root call-state.  mem0 is the initial
contents of memory. -/
def co_init (stack stack_size : Nat) (fl : Option LocalsDecl) (fb : List Stmt)
    (arg : Option (List Nat × Nat)) (mem0 : Nat → Nat) : Option Coro :=
  let cs0 : CallState :=
    { func_locals := fl, func_body := fb, state := 0,
      sub_call := CO_OFFSET_NONE, call_locals := CO_OFFSET_NONE,
      call_args := CO_OFFSET_NONE }
  let co0 : Coro :=
    { call := cs0, waiting := false, stack_size := stack_size,
      stack_top := stack, stack := stack, mem := mem0, frames := fun _ => none }
  match _co_init_call_state co0 fl fb arg with
  | none => none
  | some (cs, co1) => some { co1 with call := cs }

/-- co_completed of coro.h. -/
def co_completed (co : Coro) : Bool :=
  decide (co.call.state = CORO_STATE_COMPLETED)

/-- co_waiting of coro.h. -/
def co_waiting (co : Coro) : Bool :=
  co.waiting

/-- sizeof(_coro_call_state) on LP64 (two 8-byte pointers, an int32_t and
three uint32_t, padded to pointer alignment). -/
def sizeof_coro_call_state : Nat := 32

/-- alignof(_coro_call_state) on LP64. -/
def alignof_coro_call_state : Nat := 8

/-- The call-state the interpreter is currently running: none is the root's
own call field, some off a call-state placed on the stack at offset off
(the cast of a stack location to coro* that coro.h performs). -/
def getCS (co : Coro) (selfOff : Option Nat) : Option CallState :=
  match selfOff with
  | none => some co.call
  | some off => co.frames off

/-- Write back the current call-state (the field updates coro.h performs
through the coro* pointer). -/
def setCS (co : Coro) (selfOff : Option Nat) (cs : CallState) : Coro :=
  match selfOff with
  | none => { co with call := cs }
  | some off =>
    { co with frames := fun o => if o = off then some cs else co.frames o }

/-- The co_locals_end code that runs at every entry of a coroutine body
before co_begin: if call_locals is still the sentinel, allocate the locals
aggregate, default-construct it (placement new modelled as writing the
declared initial bytes) and record its stack offset; otherwise do nothing. -/
def localsBind (co : Coro) (selfOff : Option Nat) (cs : CallState) :
    Option Coro :=
  match cs.func_locals with
  | none => some co
  | some ld =>
    if cs.call_locals = CO_OFFSET_NONE then
      match _co_stack_alloc co ld.size ld.align with
      | none => none
      | some (p, co1) =>
        let co2 :=
          { co1 with mem := fun a =>
              if p ≤ a ∧ a < p + ld.size then ld.initByte (a - p) else co1.mem a }
        some (setCS co2 selfOff
          { cs with call_locals := _co_ptr_to_stack_offset co2 p })
    else
      some co

/-- One pass over the remainder of a body: the switch dispatch of co_begin
jumps here with the statements from the resumption index on.  idx is the
index of the first remaining statement in the whole body.  subInvoke is the
one full invocation of a sub-coroutine callback that _co_sub_call performs
inside _co_call (supplied by invoke with one unit of fuel less).

Statement semantics, each translated from its macro in coro.h:
* running off the end is co_end, i.e. co_exit: state := CORO_STATE_COMPLETED;
* sexit is co_exit;
* syield sets state to the id of the resumption point just after it (idx+1)
  and returns;
* swait is co_wait: sets the root's waiting flag, then co_yield;
* store writes one byte into the locals block (ordinary body code);
* scall is co_call: _co_call allocates a call-state frame on the stack,
  initializes it (argument copy included), links it as this activation's
  sub_call, and drives it once; if the sub-call completed, the frame is
  rewound off the stack, the link cleared, and the body continues past the
  call site, otherwise the calling activation itself yields at the call
  site. -/
def runStmts (subInvoke : Coro → Nat → Option Coro) :
    Coro → Option Nat → List Stmt → Nat → Option Coro
  | co, selfOff, [], _ =>
    match getCS co selfOff with
    | none => none
    | some cs => some (setCS co selfOff { cs with state := CORO_STATE_COMPLETED })
  | co, selfOff, s :: rest, idx =>
    match getCS co selfOff with
    | none => none
    | some cs =>
      match s with
      | Stmt.sexit =>
        some (setCS co selfOff { cs with state := CORO_STATE_COMPLETED })
      | Stmt.syield =>
        some (setCS co selfOff { cs with state := Int.ofNat (idx + 1) })
      | Stmt.swait =>
        some (setCS { co with waiting := true } selfOff
          { cs with state := Int.ofNat (idx + 1) })
      | Stmt.store off val =>
        let addr := _co_stack_offset_to_ptr co cs.call_locals + off
        runStmts subInvoke { co with mem := fun a => if a = addr then val else co.mem a }
          selfOff rest (idx + 1)
      | Stmt.scall fl fb arg =>
        match _co_stack_alloc co sizeof_coro_call_state alignof_coro_call_state with
        | none => none
        | some (p, co1) =>
          match _co_init_call_state co1 fl fb arg with
          | none => none
          | some (subcs, co2) =>
            let off := _co_ptr_to_stack_offset co2 p
            let co3 :=
              { co2 with frames := fun o => if o = off then some subcs else co2.frames o }
            let co4 := setCS co3 selfOff { cs with sub_call := off }
            match subInvoke co4 off with
            | none => none
            | some co5 =>
              match co5.frames off with
              | none => none
              | some sub =>
                if sub.state = CORO_STATE_COMPLETED then
                  match _co_stack_rewind co5 (_co_stack_offset_to_ptr co5 off) with
                  | none => none
                  | some co6 =>
                    match getCS co6 selfOff with
                    | none => none
                    | some cs6 =>
                      runStmts subInvoke
                        (setCS co6 selfOff { cs6 with sub_call := CO_OFFSET_NONE })
                        selfOff rest (idx + 1)
                else
                  match getCS co5 selfOff with
                  | none => none
                  | some cs5 =>
                    some (setCS co5 selfOff { cs5 with state := Int.ofNat (idx + 1) })

/-- One invocation of a coroutine callback (_co_invoke_callback): the locals
binding code runs first, then co_begin: if a sub-call is active it is driven
(_co_sub_call) — when it completes its stack space is rewound and the link
cleared, and the switch dispatches on the resumption-point id into the body;
while it has not completed the activation returns at once.  When no sub-call
is active the switch dispatches directly.  Fuel bounds the sub-call nesting
depth (one unit per level); running out of fuel yields none. -/
def invoke : Nat → Coro → Option Nat → Option Coro
  | 0, _, _ => none
  | fuel + 1, co, selfOff =>
    match getCS co selfOff with
    | none => none
    | some cs =>
      match localsBind co selfOff cs with
      | none => none
      | some co1 =>
        match getCS co1 selfOff with
        | none => none
        | some cs1 =>
          if cs1.sub_call = CO_OFFSET_NONE then
            runStmts (fun c o => invoke fuel c (some o)) co1 selfOff
              (cs1.func_body.drop cs1.state.toNat) cs1.state.toNat
          else
            match invoke fuel co1 (some cs1.sub_call) with
            | none => none
            | some co2 =>
              match co2.frames cs1.sub_call with
              | none => none
              | some sub =>
                if sub.state = CORO_STATE_COMPLETED then
                  match _co_stack_rewind co2 (_co_stack_offset_to_ptr co2 cs1.sub_call) with
                  | none => none
                  | some co3 =>
                    match getCS co3 selfOff with
                    | none => none
                    | some cs3 =>
                      runStmts (fun c o => invoke fuel c (some o))
                        (setCS co3 selfOff { cs3 with sub_call := CO_OFFSET_NONE })
                        selfOff (cs3.func_body.drop cs3.state.toNat) cs3.state.toNat
                else
                  some co2

/-- co_resume of coro.h: asserts the coroutine has not completed, clears the
waiting flag before any coroutine code runs, and performs one invocation of
the root callback.  (Setting and clearing the transient userdata pointer is
not modelled.) -/
def co_resume (fuel : Nat) (co : Coro) : Option Coro :=
  if co_completed co then
    none
  else
    invoke fuel { co with waiting := false } none

/-- k successive calls to co_resume. -/
def resumeN (fuel : Nat) : Nat → Coro → Option Coro
  | 0, co => some co
  | k + 1, co =>
    match co_resume fuel co with
    | none => none
    | some co1 => resumeN fuel k co1

/-- Masking with the 64-bit complement of a power-of-two-minus-one clears the
low bits: for a < 2^64 and k ≤ 64, a AND (2^64 - 2^k) keeps exactly the
multiples of 2^k in a. -/
theorem land_high_mask (a k : Nat) (hk : k ≤ 64) (ha : a < 2 ^ 64) :
    a &&& (2 ^ 64 - 2 ^ k) = 2 ^ k * (a / 2 ^ k) := by
  have hsplit : 2 ^ k * (a / 2 ^ k) + a % 2 ^ k = a := Nat.div_add_mod a (2 ^ k)
  have hpow : (2 : Nat) ^ k * 2 ^ (64 - k) = 2 ^ 64 := by
    rw [← pow_add]
    congr 1
    omega
  have hmask : (2 : Nat) ^ 64 - 2 ^ k = 2 ^ k * (2 ^ (64 - k) - 1) := by
    rw [Nat.mul_sub, hpow, Nat.mul_one]
  rw [hmask]
  apply Nat.eq_of_testBit_eq
  intro j
  rw [Nat.testBit_and, Nat.testBit_mul_pow_two, Nat.testBit_mul_pow_two,
    Nat.testBit_two_pow_sub_one]
  rcases Nat.lt_or_ge j k with hjk | hjk
  · simp [Nat.not_le.mpr hjk]
  · have hja : a.testBit j = (a / 2 ^ k).testBit (j - k) := by
      conv_lhs => rw [← hsplit]
      rw [Nat.testBit_mul_pow_two_add _ (Nat.mod_lt _ (Nat.two_pow_pos k))]
      simp [Nat.not_lt.mpr hjk]
    rcases Nat.lt_or_ge j 64 with hj64 | hj64
    · have hlt : j - k < 64 - k := by omega
      simp [hja, hjk, hlt]
    · have hge : ¬(j - k < 64 - k) := by omega
      have hdiv : a / 2 ^ k < 2 ^ (64 - k) := by
        apply Nat.div_lt_of_lt_mul
        have hc : (2 : Nat) ^ (64 - k) * 2 ^ k = 2 ^ 64 := by
          rw [Nat.mul_comm]
          exact hpow
        omega
      have hbit : (a / 2 ^ k).testBit (j - k) = false := by
        apply Nat.testBit_lt_two_pow
        exact Nat.lt_of_lt_of_le hdiv (Nat.pow_le_pow_right (by omega) (by omega))
      simp [hjk, hge, hbit]

/-- The mask computation of _co_stack_alloc equals rounding up to the next
multiple of the alignment, for power-of-two alignments when the addition does
not wrap the 64-bit word. -/
theorem align_up_pow2 (top k : Nat) (hk : k ≤ 64) (h : top + 2 ^ k ≤ 2 ^ 64) :
    _co_align_up top (2 ^ k) = 2 ^ k * ((top + (2 ^ k - 1)) / 2 ^ k) := by
  have hp : (1 : Nat) ≤ 2 ^ k := Nat.one_le_two_pow
  have ha : top + ((2 : Nat) ^ k - 1) < 2 ^ 64 := by omega
  unfold _co_align_up
  rw [Nat.mod_eq_of_lt ha]
  have hm : (2 : Nat) ^ 64 - 1 - (2 ^ k - 1) = 2 ^ 64 - 2 ^ k := by omega
  rw [hm, land_high_mask _ _ hk ha]

/-- The aligned location is at or above the old high-water mark. -/
theorem align_up_pow2_ge (top k : Nat) (hk : k ≤ 64) (h : top + 2 ^ k ≤ 2 ^ 64) :
    top ≤ _co_align_up top (2 ^ k) := by
  rw [align_up_pow2 top k hk h]
  have hp : (1 : Nat) ≤ 2 ^ k := Nat.one_le_two_pow
  have hsplit := Nat.div_add_mod (top + (2 ^ k - 1)) (2 ^ k)
  have hmod : (top + (2 ^ k - 1)) % 2 ^ k < 2 ^ k :=
    Nat.mod_lt _ (Nat.two_pow_pos k)
  omega

/-- The aligned location is a multiple of the alignment. -/
theorem align_up_pow2_mod (top k : Nat) (hk : k ≤ 64) (h : top + 2 ^ k ≤ 2 ^ 64) :
    _co_align_up top (2 ^ k) % 2 ^ k = 0 := by
  rw [align_up_pow2 top k hk h]
  exact Nat.mul_mod_right _ _

/-- The aligned location overshoots the old mark by less than one alignment. -/
theorem align_up_pow2_lt (top k : Nat) (hk : k ≤ 64) (h : top + 2 ^ k ≤ 2 ^ 64) :
    _co_align_up top (2 ^ k) < top + 2 ^ k := by
  rw [align_up_pow2 top k hk h]
  have hp : (1 : Nat) ≤ 2 ^ k := Nat.one_le_two_pow
  have hsplit := Nat.div_add_mod (top + (2 ^ k - 1)) (2 ^ k)
  omega

/-- An already aligned mark is left in place by the align-up computation. -/
theorem align_up_pow2_self (top k : Nat) (hk : k ≤ 64) (h : top + 2 ^ k ≤ 2 ^ 64)
    (ht : top % 2 ^ k = 0) : _co_align_up top (2 ^ k) = top := by
  have hge := align_up_pow2_ge top k hk h
  have hlt := align_up_pow2_lt top k hk h
  have hmod := align_up_pow2_mod top k hk h
  obtain ⟨q, hq⟩ := Nat.dvd_of_mod_eq_zero hmod
  obtain ⟨t, htq⟩ := Nat.dvd_of_mod_eq_zero ht
  have h1 : t ≤ q := by
    apply Nat.le_of_mul_le_mul_left _ (Nat.two_pow_pos k)
    omega
  have h2 : q < t + 1 := by
    apply Nat.lt_of_mul_lt_mul_left
    show 2 ^ k * q < 2 ^ k * (t + 1)
    have : 2 ^ k * (t + 1) = 2 ^ k * t + 2 ^ k := by ring
    omega
  have hqt : q = t := by omega
  rw [hq, htq, hqt]

/-- The argument pointer that _co_invoke_callback passes as the callback's
third parameter: the call_args offset converted unconditionally with
_co_stack_offset_to_ptr, the CO_OFFSET_NONE sentinel included. -/
def _co_invoke_callback_argptr (co : Coro) (cs : CallState) : Nat :=
  _co_stack_offset_to_ptr co cs.call_args

/-- Modelled from the spec: the advanced variant of the engine whose allocator
surfaces stack exhaustion as an observable flag.  The repository's tests
exercise co_stack_overflowed and co_replace_stack, but the header variant
implementing them is not under src/ (src/coro.h only has the fatal
CORO_ASSERT form), so the overflow flag is modelled here from the spec:
the root coroutine carries a stack_overflowed flag next to the state of the
simple variant. -/
structure CoroAdv where
  base : Coro
  stack_overflowed : Bool

/-- Modelled from the spec: the advanced allocator.  On success it behaves as
_co_stack_alloc; when the new mark would exceed capacity it raises the
overflow condition on the root coroutine instead of writing past the buffer,
returning no location and leaving the rest of the coroutine untouched. -/
def co_stack_alloc_adv (c : CoroAdv) (size align : Nat) :
    Option Nat × CoroAdv :=
  let ptr := _co_align_up c.base.stack_top align
  if ptr + size ≤ c.base.stack + c.base.stack_size then
    (some ptr, { c with base := { c.base with stack_top := ptr + size } })
  else
    (none, { c with stack_overflowed := true })

/-- A trivial call-state used to build concrete coroutines in witnesses. -/
def csNil : CallState :=
  { func_locals := none, func_body := [], state := 0,
    sub_call := CO_OFFSET_NONE, call_locals := CO_OFFSET_NONE,
    call_args := CO_OFFSET_NONE }

/-- Zero-initialized memory used in witnesses. -/
def zmem : Nat → Nat := fun _ => 0

/-- A concrete coroutine over a 64-byte buffer at address 8 whose mark has
advanced to 9, used in witnesses. -/
def coW : Coro :=
  { call := csNil, waiting := false, stack_size := 64, stack_top := 9,
    stack := 8, mem := zmem, frames := fun _ => none }

/-- C6: allocate(size, align) returns a location at or above the current
high-water mark, aligned to align, and advances the mark to that location plus
size, changing nothing else; rewind(location) resets the high-water mark to
the given location when it lies inside [base, base + capacity), and rewinding
to a location outside that range is a contract violation (the assertion
fires). -/
theorem stack_alloc_rewind_contract (co co1 : Coro) (size k p ptrOk ptrBad : Nat)
    (hk : k ≤ 64) (hw : co.stack_top + 2 ^ k ≤ 2 ^ 64)
    (halloc : _co_stack_alloc co size (2 ^ k) = some (p, co1))
    (hlo : co.stack ≤ ptrOk) (hhi : ptrOk < co.stack + co.stack_size)
    (hbad : ¬(co.stack ≤ ptrBad ∧ ptrBad < co.stack + co.stack_size)) :
    (co.stack_top ≤ p ∧ p % 2 ^ k = 0 ∧
      co1 = { co with stack_top := p + size }) ∧
    _co_stack_rewind co ptrOk = some { co with stack_top := ptrOk } ∧
    _co_stack_rewind co ptrBad = none := by
  refine ⟨?_, ?_, ?_⟩
  · simp only [_co_stack_alloc] at halloc
    split at halloc
    · simp only [Option.some.injEq, Prod.mk.injEq] at halloc
      obtain ⟨hp1, hc1⟩ := halloc
      subst hp1
      refine ⟨align_up_pow2_ge co.stack_top k hk hw,
        align_up_pow2_mod co.stack_top k hk hw, hc1.symm⟩
    · exact absurd halloc (by simp)
  · unfold _co_stack_rewind
    rw [if_pos ⟨hlo, hhi⟩]
  · unfold _co_stack_rewind
    rw [if_neg hbad]

/-- C6 witness: on the concrete coroutine coW (mark 9, buffer [8, 72)), an
8-aligned 4-byte allocation lands at 16 and advances the mark to 20, rewinding
to 10 succeeds, and rewinding to 100 is rejected. -/
theorem stack_alloc_rewind_contract_witness :
    (coW.stack_top ≤ 16 ∧ 16 % 2 ^ 3 = 0 ∧
      ({ coW with stack_top := 16 + 4 } : Coro) = { coW with stack_top := 16 + 4 }) ∧
    _co_stack_rewind coW 10 = some { coW with stack_top := 10 } ∧
    _co_stack_rewind coW 100 = none :=
  stack_alloc_rewind_contract coW { coW with stack_top := 16 + 4 } 4 3 16 10 100
    (by decide) (by decide) (by rfl) (by decide) (by decide) (by decide)

/-- C7: co_exit unconditionally sets the resumption-point id of the current
activation to CORO_STATE_COMPLETED and returns immediately: the result of the
body pass does not mention the remaining statements at all (so no code after
the exit ever executes, wherever in the body the exit sits), the activation
is recorded as completed, and nothing else of the coroutine changes. -/
theorem exit_completes_immediately (si : Coro → Nat → Option Coro) (co : Coro)
    (selfOff : Option Nat) (cs : CallState) (rest : List Stmt) (idx : Nat)
    (h : getCS co selfOff = some cs) :
    runStmts si co selfOff (Stmt.sexit :: rest) idx =
      some (setCS co selfOff { cs with state := CORO_STATE_COMPLETED }) ∧
    getCS (setCS co selfOff { cs with state := CORO_STATE_COMPLETED }) selfOff =
      some { cs with state := CORO_STATE_COMPLETED } ∧
    (setCS co selfOff { cs with state := CORO_STATE_COMPLETED }).mem = co.mem ∧
    (setCS co selfOff { cs with state := CORO_STATE_COMPLETED }).stack_top =
      co.stack_top := by
  refine ⟨?_, ?_, ?_, ?_⟩
  · unfold runStmts
    rw [h]
  · cases selfOff with
    | none =>
      simp only [getCS, setCS]
    | some off =>
      simp only [getCS, setCS, if_pos rfl]
      simp
  · cases selfOff with
    | none => rfl
    | some off => rfl
  · cases selfOff with
    | none => rfl
    | some off => rfl

/-- C7 witness: an exit at index 1 of the root body, followed by two more
statements, completes the concrete coroutine coW at once without touching its
memory or mark. -/
theorem exit_completes_immediately_witness :
    runStmts (fun _ _ => none) coW none
        (Stmt.sexit :: [Stmt.syield, Stmt.swait]) 1 =
      some (setCS coW none { csNil with state := CORO_STATE_COMPLETED }) ∧
    getCS (setCS coW none { csNil with state := CORO_STATE_COMPLETED }) none =
      some { csNil with state := CORO_STATE_COMPLETED } ∧
    (setCS coW none { csNil with state := CORO_STATE_COMPLETED }).mem = coW.mem ∧
    (setCS coW none { csNil with state := CORO_STATE_COMPLETED }).stack_top =
      coW.stack_top :=
  exit_completes_immediately (fun _ _ => none) coW none csNil
    [Stmt.syield, Stmt.swait] 1 (by rfl)

/-- C1: in the advanced design (modelled from the spec, since the variant
implementing co_stack_overflowed / co_replace_stack is not under src/), an
allocation that would exceed the stack buffer's capacity raises the observable
overflow condition on the root coroutine instead of writing past the buffer:
no location is handed out, the flag is set, and the whole logical state of the
coroutine — resumption-point ids, all stored offsets, the high-water mark and
the memory contents — is exactly what it was before the failed allocation. -/
theorem overflow_raises_flag_preserves_state (c : CoroAdv) (size align : Nat)
    (hover : ¬(_co_align_up c.base.stack_top align + size ≤
      c.base.stack + c.base.stack_size)) :
    (co_stack_alloc_adv c size align).1 = none ∧
    (co_stack_alloc_adv c size align).2.stack_overflowed = true ∧
    (co_stack_alloc_adv c size align).2.base = c.base := by
  unfold co_stack_alloc_adv
  rw [if_neg hover]
  exact ⟨rfl, rfl, rfl⟩

/-- C1 witness: a 100-byte request on the 64-byte buffer of coW overflows:
the flag is raised and the coroutine state is untouched. -/
theorem overflow_raises_flag_preserves_state_witness :
    (co_stack_alloc_adv ⟨coW, false⟩ 100 8).1 = none ∧
    (co_stack_alloc_adv ⟨coW, false⟩ 100 8).2.stack_overflowed = true ∧
    (co_stack_alloc_adv ⟨coW, false⟩ 100 8).2.base = (⟨coW, false⟩ : CoroAdv).base :=
  overflow_raises_flag_preserves_state ⟨coW, false⟩ 100 8 (by decide)

/-- C10: a call-state initialized with no argument keeps the CO_OFFSET_NONE
sentinel in call_args, and the pointer _co_invoke_callback hands to the
callback's third parameter is the sentinel converted unconditionally: stack
base plus 0xFFFFFFFF.  When the addition does not wrap the 64-bit word this
is never a null pointer, and whenever the buffer is smaller than 2^32 bytes
it lies entirely outside the buffer — an invalid non-null address rather than
the null pointer the header's documentation promises. -/
theorem noarg_callback_pointer_not_null (co co' : Coro) (fl : Option LocalsDecl)
    (fb : List Stmt) (cs : CallState)
    (h : _co_init_call_state co fl fb none = some (cs, co'))
    (hnw : co'.stack + CO_OFFSET_NONE < 2 ^ 64)
    (hsz : co'.stack_size ≤ CO_OFFSET_NONE) :
    cs.call_args = CO_OFFSET_NONE ∧
    _co_invoke_callback_argptr co' cs = co'.stack + 4294967295 ∧
    _co_invoke_callback_argptr co' cs ≠ 0 ∧
    co'.stack + co'.stack_size ≤ _co_invoke_callback_argptr co' cs := by
  simp only [_co_init_call_state, Option.some.injEq, Prod.mk.injEq] at h
  obtain ⟨hcs, hco⟩ := h
  have hargs : cs.call_args = CO_OFFSET_NONE := by
    rw [← hcs]
  have hptr : _co_invoke_callback_argptr co' cs = co'.stack + 4294967295 := by
    unfold _co_invoke_callback_argptr _co_stack_offset_to_ptr
    rw [hargs]
    exact Nat.mod_eq_of_lt hnw
  refine ⟨hargs, hptr, ?_, ?_⟩
  · rw [hptr]
    omega
  · rw [hptr]
    unfold CO_OFFSET_NONE at hsz
    omega

/-- C10 witness: initializing the root call-state of coW with no argument
leaves the sentinel in place and makes the callback's argument pointer
8 + 0xFFFFFFFF, which is non-null and beyond the 64-byte buffer. -/
theorem noarg_callback_pointer_not_null_witness :
    csNil.call_args = CO_OFFSET_NONE ∧
    _co_invoke_callback_argptr coW csNil = coW.stack + 4294967295 ∧
    _co_invoke_callback_argptr coW csNil ≠ 0 ∧
    coW.stack + coW.stack_size ≤ _co_invoke_callback_argptr coW csNil :=
  noarg_callback_pointer_not_null coW coW none [] csNil (by rfl)
    (by decide) (by decide)

/-- Whether a statement is a co_call. -/
def isCall : Stmt → Bool
  | Stmt.scall _ _ _ => true
  | _ => false

/-- Whether a statement writes into the locals block. -/
def isStore : Stmt → Bool
  | Stmt.store _ _ => true
  | _ => false

/-- A body suffix with no co_call statements. -/
def noCall (l : List Stmt) : Bool := l.all fun s => !isCall s

/-- A body suffix with no writes into the locals block. -/
def noStore (l : List Stmt) : Bool := l.all fun s => !isStore s

/-- The number of yields a pass starting at the head of the suffix executes
before the activation completes (co_wait executes co_yield, so it counts;
execution stops at co_exit). -/
def execYields : List Stmt → Nat
  | [] => 0
  | Stmt.syield :: r => execYields r + 1
  | Stmt.swait :: r => execYields r + 1
  | Stmt.sexit :: _ => 0
  | Stmt.store _ _ :: r => execYields r
  | Stmt.scall _ _ _ :: r => execYields r

/-- noCall restricts to suffixes. -/
theorem noCall_drop (l : List Stmt) (n : Nat) (h : noCall l = true) :
    noCall (l.drop n) = true := by
  unfold noCall at h ⊢
  rw [List.all_eq_true] at h ⊢
  intro s hs
  exact h s (List.mem_of_mem_drop hs)

/-- noStore restricts to suffixes. -/
theorem noStore_drop (l : List Stmt) (n : Nat) (h : noStore l = true) :
    noStore (l.drop n) = true := by
  unfold noStore at h ⊢
  rw [List.all_eq_true] at h ⊢
  intro s hs
  exact h s (List.mem_of_mem_drop hs)

/-- One dispatch pass over a call-free suffix of the root body: the pass
succeeds, leaves every field of the root call-state except the
resumption-point id unchanged (and leaves memory unchanged when the suffix is
also store-free), and either completes the activation — exactly when the
suffix executes no yield — or suspends at the resumption point just after the
first executed yield, where the remaining suffix executes exactly one yield
less. -/
theorem runStmts_root_noCall (si : Coro → Nat → Option Coro) (s : List Stmt) :
    ∀ (co : Coro) (idx : Nat), noCall s = true →
    ∃ co', runStmts si co none s idx = some co' ∧
      co'.call.func_body = co.call.func_body ∧
      co'.call.func_locals = co.call.func_locals ∧
      co'.call.sub_call = co.call.sub_call ∧
      co'.call.call_locals = co.call.call_locals ∧
      co'.call.call_args = co.call.call_args ∧
      co'.stack_top = co.stack_top ∧
      co'.stack = co.stack ∧
      co'.stack_size = co.stack_size ∧
      co'.frames = co.frames ∧
      (noStore s = true → co'.mem = co.mem) ∧
      ((execYields s = 0 ∧ co'.call.state = CORO_STATE_COMPLETED) ∨
        (0 < execYields s ∧ ∃ j, co'.call.state = Int.ofNat j ∧
          idx < j ∧ j ≤ idx + s.length ∧
          execYields (s.drop (j - idx)) = execYields s - 1)) := by
  induction s with
  | nil =>
    intro co idx _
    refine ⟨{ co with call := { co.call with state := CORO_STATE_COMPLETED } },
      ?_, rfl, rfl, rfl, rfl, rfl, rfl, rfl, rfl, rfl, fun _ => rfl, ?_⟩
    · unfold runStmts
      rfl
    · exact Or.inl ⟨rfl, rfl⟩
  | cons st r ih =>
    intro co idx h
    have hr : noCall r = true := by
      unfold noCall at h ⊢
      simp only [List.all_cons, Bool.and_eq_true] at h
      exact h.2
    cases st with
    | sexit =>
      refine ⟨{ co with call := { co.call with state := CORO_STATE_COMPLETED } },
        ?_, rfl, rfl, rfl, rfl, rfl, rfl, rfl, rfl, rfl, fun _ => rfl, ?_⟩
      · unfold runStmts
        rfl
      · exact Or.inl ⟨rfl, rfl⟩
    | syield =>
      refine ⟨{ co with call := { co.call with state := Int.ofNat (idx + 1) } },
        ?_, rfl, rfl, rfl, rfl, rfl, rfl, rfl, rfl, rfl, fun _ => rfl, ?_⟩
      · unfold runStmts
        rfl
      · refine Or.inr ⟨by simp [execYields], idx + 1, rfl, by omega, ?_, ?_⟩
        · simp [List.length_cons]
        · have hd : idx + 1 - idx = 1 := by omega
          rw [hd]
          simp [List.drop_one, execYields]
    | swait =>
      refine ⟨{ co with waiting := true, call := { co.call with state := Int.ofNat (idx + 1) } },
        ?_, rfl, rfl, rfl, rfl, rfl, rfl, rfl, rfl, rfl, fun _ => rfl, ?_⟩
      · unfold runStmts
        rfl
      · refine Or.inr ⟨by simp [execYields], idx + 1, rfl, by omega, ?_, ?_⟩
        · simp [List.length_cons]
        · have hd : idx + 1 - idx = 1 := by omega
          rw [hd]
          simp [List.drop_one, execYields]
    | store off val =>
      obtain ⟨co', hrun, hfb, hfl, hsc, hcl, hca, hst, hsb, hss, hfr, hmem, hres⟩ :=
        ih { co with mem := fun a =>
            if a = _co_stack_offset_to_ptr co co.call.call_locals + off then val
            else co.mem a } (idx + 1) hr
      refine ⟨co', ?_, hfb, hfl, hsc, hcl, hca, hst, hsb, hss, hfr, ?_, ?_⟩
      · unfold runStmts
        exact hrun
      · intro hns
        exact absurd hns (by simp [noStore, isStore])
      · rcases hres with ⟨h0, hcomp⟩ | ⟨hpos, j, hj, hlt, hle, hdrop⟩
        · exact Or.inl ⟨by simpa [execYields] using h0, hcomp⟩
        · refine Or.inr ⟨by simpa [execYields] using hpos, j, hj, by omega, ?_, ?_⟩
          · simp [List.length_cons]
            omega
          · have hd : j - idx = (j - (idx + 1)) + 1 := by omega
            rw [hd, List.drop_succ_cons]
            simpa [execYields] using hdrop
    | scall fl fb arg =>
      exact absurd h (by simp [noCall, isCall])

/-- One co_resume of a root activation running a call-free body p with no
locals declaration and no active sub-call: the resume succeeds, everything
but the resumption-point id (and, for bodies with stores, memory) is
preserved, and the id either becomes COMPLETED — exactly when no yield
remains — or strictly increases to the point just after the next executed
yield. -/
theorem co_completed_of_ofNat (co : Coro) (j : Nat)
    (hst : co.call.state = Int.ofNat j) : co_completed co = false := by
  have hnn : 0 ≤ Int.ofNat j := Int.ofNat_nonneg j
  simp only [co_completed, hst, CORO_STATE_COMPLETED, decide_eq_false_iff_not]
  omega

/-- With no active sub-call and no locals declaration, an invocation is just
the switch dispatch from the current resumption index into the body. -/
theorem invoke_dispatch (fuel : Nat) (co : Coro)
    (hfl : co.call.func_locals = none) (hsc : co.call.sub_call = CO_OFFSET_NONE) :
    invoke (fuel + 1) co none =
      runStmts (fun c o => invoke fuel c (some o)) co none
        (co.call.func_body.drop co.call.state.toNat) co.call.state.toNat := by
  conv_lhs => unfold invoke
  simp only [getCS, localsBind, hfl, hsc, if_true]

theorem int_toNat_ofNat (n : Nat) : (Int.ofNat n).toNat = n := rfl

theorem resume_step_simple (p : List Stmt) (co : Coro) (j : Nat)
    (hb : co.call.func_body = p) (hfl : co.call.func_locals = none)
    (hsc : co.call.sub_call = CO_OFFSET_NONE)
    (hst : co.call.state = Int.ofNat j) (hnc : noCall p = true) :
    ∃ co', co_resume 1 co = some co' ∧
      co'.call.func_body = p ∧ co'.call.func_locals = none ∧
      co'.call.sub_call = CO_OFFSET_NONE ∧
      co'.call.call_locals = co.call.call_locals ∧
      co'.call.call_args = co.call.call_args ∧
      co'.stack_top = co.stack_top ∧ co'.stack = co.stack ∧
      co'.stack_size = co.stack_size ∧ co'.frames = co.frames ∧
      (noStore p = true → co'.mem = co.mem) ∧
      ((execYields (p.drop j) = 0 ∧ co'.call.state = CORO_STATE_COMPLETED) ∨
        (0 < execYields (p.drop j) ∧ ∃ jj, co'.call.state = Int.ofNat jj ∧
          j < jj ∧ jj ≤ p.length ∧
          execYields (p.drop jj) = execYields (p.drop j) - 1)) := by
  have hcw : co_completed co = false := co_completed_of_ofNat co j hst
  have hres : co_resume 1 co =
      runStmts (fun c o => invoke 0 c (some o)) { co with waiting := false } none
        (p.drop j) j := by
    unfold co_resume
    rw [hcw, if_neg Bool.false_ne_true]
    rw [invoke_dispatch 0 { co with waiting := false } hfl hsc]
    simp only [hb, hst, int_toNat_ofNat]
  obtain ⟨co', hrun, hfb, hfl2, hsc2, hcl, hca, hstop, hsb, hss, hfr, hmem, hbr⟩ :=
    runStmts_root_noCall (fun c o => invoke 0 c (some o)) (p.drop j)
      { co with waiting := false } j (noCall_drop p j hnc)
  refine ⟨co', by rw [hres]; exact hrun, by rw [hfb]; exact hb, by rw [hfl2]; exact hfl,
    by rw [hsc2]; exact hsc, hcl, hca, hstop, hsb, hss, hfr,
    fun hns => by rw [hmem (noStore_drop p j hns)], ?_⟩
  rcases hbr with ⟨h0, hcomp⟩ | ⟨hpos, jj, hj, hlt, hle, hdrop⟩
  · exact Or.inl ⟨h0, hcomp⟩
  · have hjlen : j ≤ p.length := by
      by_contra hc
      push_neg at hc
      rw [List.drop_eq_nil_of_le (by omega)] at hpos
      simp [execYields] at hpos
    refine Or.inr ⟨hpos, jj, hj, hlt, ?_, ?_⟩
    · rw [List.length_drop] at hle
      omega
    · rw [List.drop_drop] at hdrop
      have hsum : j + (jj - j) = jj := by omega
      rw [hsum] at hdrop
      exact hdrop

/-- Chained co_resumes of a simple root activation: with m yields left to
execute from the current resumption point, every prefix of at most m resumes
leaves the coroutine uncompleted and the (m+1)-st resume completes it. -/
theorem resume_chain_simple (m : Nat) : ∀ (p : List Stmt) (co : Coro) (j : Nat),
    co.call.func_body = p → co.call.func_locals = none →
    co.call.sub_call = CO_OFFSET_NONE → co.call.state = Int.ofNat j →
    noCall p = true → execYields (p.drop j) = m →
    (∀ k, k ≤ m → (resumeN 1 k co).map co_completed = some false) ∧
    (resumeN 1 (m + 1) co).map co_completed = some true := by
  induction m with
  | zero =>
    intro p co j hb hfl hsc hst hnc hey
    obtain ⟨co', hres, _, _, _, _, _, _, _, _, _, _, hbr⟩ :=
      resume_step_simple p co j hb hfl hsc hst hnc
    rcases hbr with ⟨_, hcomp⟩ | ⟨hpos, _⟩
    · constructor
      · intro k hk
        have hk0 : k = 0 := by omega
        subst hk0
        simp [resumeN, co_completed_of_ofNat co j hst]
      · show (resumeN 1 1 co).map co_completed = some true
        unfold resumeN
        rw [hres]
        unfold resumeN
        simp [co_completed, hcomp]
    · omega
  | succ m ih =>
    intro p co j hb hfl hsc hst hnc hey
    obtain ⟨co', hres, hb', hfl', hsc', _, _, _, _, _, _, _, hbr⟩ :=
      resume_step_simple p co j hb hfl hsc hst hnc
    rcases hbr with ⟨h0, _⟩ | ⟨hpos, jj, hj, hlt, hle, hdrop⟩
    · omega
    · have hey' : execYields (p.drop jj) = m := by omega
      obtain ⟨ihk, ihf⟩ := ih p co' jj hb' hfl' hsc' hj hnc hey'
      constructor
      · intro k hk
        cases k with
        | zero =>
          simp [resumeN, co_completed_of_ofNat co j hst]
        | succ k' =>
          show ((resumeN 1 (k' + 1) co).map co_completed) = some false
          unfold resumeN
          rw [hres]
          exact ihk k' (by omega)
      · show (resumeN 1 (m + 1 + 1) co).map co_completed = some true
        unfold resumeN
        rw [hres]
        exact ihf

/-- The coroutine co_init builds for a buffer, body and no argument. -/
def initCoro (stack stack_size : Nat) (fl : Option LocalsDecl) (fb : List Stmt)
    (mem0 : Nat → Nat) : Coro :=
  { call :=
      { func_locals := fl, func_body := fb, state := 0,
        sub_call := CO_OFFSET_NONE, call_locals := CO_OFFSET_NONE,
        call_args := CO_OFFSET_NONE },
    waiting := false, stack_size := stack_size,
    stack_top := stack, stack := stack, mem := mem0, frames := fun _ => none }

/-- co_init with no argument always succeeds and yields initCoro. -/
theorem co_init_noarg (stack stack_size : Nat) (fl : Option LocalsDecl)
    (fb : List Stmt) (mem0 : Nat → Nat) :
    co_init stack stack_size fl fb none mem0 =
      some (initCoro stack stack_size fl fb mem0) := rfl

/-- C2: a coroutine whose call-free body executes yield exactly N times
before reaching its terminal point needs exactly N+1 resumes to complete:
after any k ≤ N resumes completed() is still false, and after the (N+1)-st it
is true. -/
theorem yields_need_one_more_resume (stack stack_size : Nat) (mem0 : Nat → Nat)
    (p : List Stmt) (co0 : Coro) (k : Nat)
    (hnc : noCall p = true)
    (h0 : co_init stack stack_size none p none mem0 = some co0)
    (hk : k ≤ execYields p) :
    (resumeN 1 k co0).map co_completed = some false ∧
    (resumeN 1 (execYields p + 1) co0).map co_completed = some true := by
  have hco : co0 = initCoro stack stack_size none p mem0 := by
    rw [co_init_noarg] at h0
    simp only [Option.some.injEq] at h0
    exact h0.symm
  obtain ⟨hks, hfin⟩ := resume_chain_simple (execYields p) p co0 0
    (by rw [hco]; rfl) (by rw [hco]; rfl) (by rw [hco]; rfl) (by rw [hco]; rfl)
    hnc (by simp)
  exact ⟨hks k hk, hfin⟩

/-- C2 witness: the body with exactly two yields is uncompleted after two
resumes and completed after the third. -/
theorem yields_need_one_more_resume_witness :
    (resumeN 1 2 (initCoro 0 0 none [Stmt.syield, Stmt.syield] zmem)).map
      co_completed = some false ∧
    (resumeN 1 (execYields [Stmt.syield, Stmt.syield] + 1)
      (initCoro 0 0 none [Stmt.syield, Stmt.syield] zmem)).map
      co_completed = some true :=
  yields_need_one_more_resume 0 0 zmem [Stmt.syield, Stmt.syield] _ 2
    (by decide) (co_init_noarg 0 0 none [Stmt.syield, Stmt.syield] zmem)
    (by decide)

/-- C5 counterexample: a freshly initialized coroutine carries resumption-point
id 0 — not the CORO_STATE_CREATED sentinel (-1), which _co_init_call_state
never assigns (it writes call->state = 0). -/
theorem created_sentinel_not_assigned_at_init :
    co_init 0 0 none [] none zmem = some (initCoro 0 0 none [] zmem) ∧
    (initCoro 0 0 none [] zmem).call.state = 0 ∧
    (initCoro 0 0 none [] zmem).call.state ≠ CORO_STATE_CREATED :=
  ⟨rfl, rfl, by decide⟩

/-- C5 (amended): a Call-State's resumption-point id is 0 — the value that
dispatches to the start of the body, not the declared CREATED sentinel — from
initialization until its first resume; while the activation is active a
resume strictly increases the id (for a call-free body, to the id just after
the executed yield, at most the body length); finished activations hold the
terminal COMPLETED sentinel, and resuming a completed coroutine is a contract
violation reported immediately (the assertion in co_resume fires before any
coroutine code runs). -/
theorem state_lifecycle (stack stack_size : Nat) (mem0 : Nat → Nat)
    (fl : Option LocalsDecl) (fb : List Stmt)
    (p : List Stmt) (co co' : Coro) (j : Nat)
    (hb : co.call.func_body = p) (hfl : co.call.func_locals = none)
    (hsc : co.call.sub_call = CO_OFFSET_NONE) (hst : co.call.state = Int.ofNat j)
    (hnc : noCall p = true) (hres : co_resume 1 co = some co')
    (fuel : Nat) (cod : Coro) (hcomp : co_completed cod = true) :
    (co_init stack stack_size fl fb none mem0 =
        some (initCoro stack stack_size fl fb mem0) ∧
      (initCoro stack stack_size fl fb mem0).call.state = 0) ∧
    (co'.call.state = CORO_STATE_COMPLETED ∨
      (Int.ofNat j < co'.call.state ∧ co'.call.state ≤ Int.ofNat p.length)) ∧
    co_resume fuel cod = none := by
  refine ⟨⟨co_init_noarg stack stack_size fl fb mem0, rfl⟩, ?_, ?_⟩
  · obtain ⟨co2, hres2, _, _, _, _, _, _, _, _, _, _, hbr⟩ :=
      resume_step_simple p co j hb hfl hsc hst hnc
    rw [hres] at hres2
    simp only [Option.some.injEq] at hres2
    subst hres2
    rcases hbr with ⟨_, hcompl⟩ | ⟨_, jj, hj, hlt, hle, _⟩
    · exact Or.inl hcompl
    · refine Or.inr ⟨?_, ?_⟩
      · rw [hj]
        exact Int.ofNat_lt.mpr hlt
      · rw [hj]
        exact Int.ofNat_le.mpr hle
  · unfold co_resume
    rw [hcomp, if_pos rfl]

/-- C5 witness: the single-yield coroutine starts at id 0, its first resume
raises the id to 1, and a completed coroutine refuses to resume. -/
theorem state_lifecycle_witness :
    (co_init 0 0 none [] none zmem = some (initCoro 0 0 none [] zmem) ∧
      (initCoro 0 0 none [] zmem).call.state = 0) ∧
    (({ initCoro 0 0 none [Stmt.syield] zmem with call := { (initCoro 0 0 none [Stmt.syield] zmem).call with state := Int.ofNat 1 } } : Coro).call.state = CORO_STATE_COMPLETED ∨
      (Int.ofNat 0 < ({ initCoro 0 0 none [Stmt.syield] zmem with call := { (initCoro 0 0 none [Stmt.syield] zmem).call with state := Int.ofNat 1 } } : Coro).call.state ∧
        ({ initCoro 0 0 none [Stmt.syield] zmem with call := { (initCoro 0 0 none [Stmt.syield] zmem).call with state := Int.ofNat 1 } } : Coro).call.state ≤ Int.ofNat [Stmt.syield].length)) ∧
    co_resume 3 { initCoro 0 0 none [] zmem with call := { (initCoro 0 0 none [] zmem).call with state := CORO_STATE_COMPLETED } } = none :=
  state_lifecycle 0 0 zmem none [] [Stmt.syield]
    (initCoro 0 0 none [Stmt.syield] zmem)
    { initCoro 0 0 none [Stmt.syield] zmem with call := { (initCoro 0 0 none [Stmt.syield] zmem).call with state := Int.ofNat 1 } }
    0 rfl rfl rfl rfl (by decide) (by rfl) 3
    { initCoro 0 0 none [] zmem with call := { (initCoro 0 0 none [] zmem).call with state := CORO_STATE_COMPLETED } }
    (by rfl)

/-- The coroutine co_init builds when given an argument that fits: the bytes
are memcpyd to the aligned location above the base and the uint32 offset of
that location recorded in call_args. -/
def argInitCoro (stack stack_size : Nat) (fl : Option LocalsDecl) (fb : List Stmt)
    (bytes : List Nat) (al : Nat) (mem0 : Nat → Nat) : Coro :=
  { call :=
      { func_locals := fl, func_body := fb, state := 0,
        sub_call := CO_OFFSET_NONE, call_locals := CO_OFFSET_NONE,
        call_args := (_co_align_up stack al - stack) % 2 ^ 32 },
    waiting := false, stack_size := stack_size,
    stack_top := _co_align_up stack al + bytes.length, stack := stack,
    mem := memcpyBytes mem0 (_co_align_up stack al) bytes,
    frames := fun _ => none }

/-- co_init with an argument on a non-null buffer, when the aligned argument
block fits, copies the bytes and records the offset. -/
theorem co_init_arg_eq (stack stack_size : Nat) (fl : Option LocalsDecl)
    (fb : List Stmt) (bytes : List Nat) (al : Nat) (mem0 : Nat → Nat)
    (hstack : stack ≠ 0)
    (hfit : _co_align_up stack al + bytes.length ≤ stack + stack_size) :
    co_init stack stack_size fl fb (some (bytes, al)) mem0 =
      some (argInitCoro stack stack_size fl fb bytes al mem0) := by
  simp only [co_init, _co_init_call_state, _co_stack_alloc, _co_ptr_to_stack_offset]
  rw [if_neg hstack, if_pos hfit]
  rfl

/-- C9: a non-empty argument given to init (and, through the same
_co_init_call_state path, to call) is copied byte for byte to an aligned
location inside the stack buffer and its offset recorded; initializing with a
non-empty argument and a null buffer, or one of zero capacity, is a contract
violation (the assertion halts); with no argument the block is absent (the
offset keeps the none sentinel); and the recorded offset and the copied
bytes survive later resumes untouched by the engine. -/
theorem argument_block_contract
    (stack stack_size k : Nat) (bytes : List Nat) (fl : Option LocalsDecl)
    (fb : List Stmt) (mem0 : Nat → Nat) (co : Coro) (i : Nat)
    (hstack : stack ≠ 0) (hk : k ≤ 32) (hnw : stack + 2 ^ k ≤ 2 ^ 64)
    (hfit : _co_align_up stack (2 ^ k) + bytes.length ≤ stack + stack_size)
    (hinit : co_init stack stack_size fl fb (some (bytes, 2 ^ k)) mem0 = some co)
    (hi : i < bytes.length)
    (sz2 : Nat) (bytes2 : List Nat) (al2 : Nat) (fl2 : Option LocalsDecl)
    (fb2 : List Stmt) (mem2 : Nat → Nat)
    (stack3 k3 : Nat) (bytes3 : List Nat) (fl3 : Option LocalsDecl)
    (fb3 : List Stmt) (mem3 : Nat → Nat)
    (hs3 : stack3 ≠ 0) (hk3 : k3 ≤ 32) (hnw3 : stack3 + 2 ^ k3 ≤ 2 ^ 64)
    (hlen3 : 0 < bytes3.length)
    (stack4 sz4 : Nat) (fl4 : Option LocalsDecl) (fb4 : List Stmt) (mem4 : Nat → Nat)
    (p5 : List Stmt) (co5 co5' : Coro) (j5 : Nat)
    (hb5 : co5.call.func_body = p5) (hfl5 : co5.call.func_locals = none)
    (hsc5 : co5.call.sub_call = CO_OFFSET_NONE)
    (hst5 : co5.call.state = Int.ofNat j5) (hnc5 : noCall p5 = true)
    (hres5 : co_resume 1 co5 = some co5') :
    (co.call.call_args = _co_align_up stack (2 ^ k) - stack ∧
      _co_align_up stack (2 ^ k) % 2 ^ k = 0 ∧
      stack ≤ _co_align_up stack (2 ^ k) ∧
      _co_align_up stack (2 ^ k) + bytes.length ≤ stack + stack_size ∧
      co.mem (_co_align_up stack (2 ^ k) + i) = bytes.getD i 0) ∧
    co_init 0 sz2 fl2 fb2 (some (bytes2, al2)) mem2 = none ∧
    co_init stack3 0 fl3 fb3 (some (bytes3, 2 ^ k3)) mem3 = none ∧
    (co_init stack4 sz4 fl4 fb4 none mem4 =
        some (initCoro stack4 sz4 fl4 fb4 mem4) ∧
      (initCoro stack4 sz4 fl4 fb4 mem4).call.call_args = CO_OFFSET_NONE) ∧
    (co5'.call.call_args = co5.call.call_args ∧
      (noStore p5 = true → co5'.mem = co5.mem)) := by
  have hk64 : k ≤ 64 := by omega
  have hge := align_up_pow2_ge stack k hk64 hnw
  have hmod := align_up_pow2_mod stack k hk64 hnw
  have hlt := align_up_pow2_lt stack k hk64 hnw
  refine ⟨?_, ?_, ?_, ⟨co_init_noarg stack4 sz4 fl4 fb4 mem4, rfl⟩, ?_⟩
  · rw [co_init_arg_eq stack stack_size fl fb bytes (2 ^ k) mem0 hstack hfit]
      at hinit
    simp only [Option.some.injEq] at hinit
    subst hinit
    have hsmall : _co_align_up stack (2 ^ k) - stack < 2 ^ 32 := by
      have h32 : (2 : Nat) ^ k ≤ 2 ^ 32 := Nat.pow_le_pow_right (by omega) hk
      omega
    refine ⟨?_, hmod, hge, hfit, ?_⟩
    · show (_co_align_up stack (2 ^ k) - stack) % 2 ^ 32 = _
      exact Nat.mod_eq_of_lt hsmall
    · show memcpyBytes mem0 (_co_align_up stack (2 ^ k)) bytes _ = _
      unfold memcpyBytes
      rw [if_pos ⟨by omega, by omega⟩]
      congr 1
      omega
  · rfl
  · have hge3 := align_up_pow2_ge stack3 k3 (by omega) hnw3
    have hnofit : ¬(_co_align_up stack3 (2 ^ k3) + bytes3.length ≤ stack3 + 0) := by
      omega
    simp only [co_init, _co_init_call_state, _co_stack_alloc]
    rw [if_neg hs3, if_neg hnofit]
  · obtain ⟨co2, hres2, _, _, _, _, hca, _, _, _, _, hmem, _⟩ :=
      resume_step_simple p5 co5 j5 hb5 hfl5 hsc5 hst5 hnc5
    rw [hres5] at hres2
    simp only [Option.some.injEq] at hres2
    subst hres2
    exact ⟨hca, hmem⟩

/-- C9 witness: three bytes aligned to 4 on the buffer [8, 72) are copied to
location 8 (offset 0); a null or zero-sized buffer rejects a non-empty
argument; no argument leaves the sentinel; one resume of a yield body keeps
the offset and the memory. -/
theorem argument_block_contract_witness :
    ((argInitCoro 8 64 none [] [10, 20, 30] (2 ^ 2) zmem).call.call_args =
        _co_align_up 8 (2 ^ 2) - 8 ∧
      _co_align_up 8 (2 ^ 2) % 2 ^ 2 = 0 ∧
      8 ≤ _co_align_up 8 (2 ^ 2) ∧
      _co_align_up 8 (2 ^ 2) + [10, 20, 30].length ≤ 8 + 64 ∧
      (argInitCoro 8 64 none [] [10, 20, 30] (2 ^ 2) zmem).mem
        (_co_align_up 8 (2 ^ 2) + 1) = [10, 20, 30].getD 1 0) ∧
    co_init 0 16 none [] (some ([1], 1)) zmem = none ∧
    co_init 8 0 none [] (some ([1], 2 ^ 0)) zmem = none ∧
    (co_init 0 0 none [] none zmem = some (initCoro 0 0 none [] zmem) ∧
      (initCoro 0 0 none [] zmem).call.call_args = CO_OFFSET_NONE) ∧
    (({ initCoro 0 0 none [Stmt.syield] zmem with call := { (initCoro 0 0 none [Stmt.syield] zmem).call with state := Int.ofNat 1 } } : Coro).call.call_args = (initCoro 0 0 none [Stmt.syield] zmem).call.call_args ∧
      (noStore [Stmt.syield] = true →
        ({ initCoro 0 0 none [Stmt.syield] zmem with call := { (initCoro 0 0 none [Stmt.syield] zmem).call with state := Int.ofNat 1 } } : Coro).mem =
          (initCoro 0 0 none [Stmt.syield] zmem).mem)) :=
  argument_block_contract 8 64 2 [10, 20, 30] none [] zmem
    (argInitCoro 8 64 none [] [10, 20, 30] (2 ^ 2) zmem) 1
    (by decide) (by decide) (by decide) (by decide) (by rfl) (by decide)
    16 [1] 1 none [] zmem
    8 0 [1] none [] zmem (by decide) (by decide) (by decide) (by decide)
    0 0 none [] zmem
    [Stmt.syield] (initCoro 0 0 none [Stmt.syield] zmem)
    { initCoro 0 0 none [Stmt.syield] zmem with call := { (initCoro 0 0 none [Stmt.syield] zmem).call with state := Int.ofNat 1 } }
    0 rfl rfl rfl rfl (by decide) (by rfl)

/-- The locals-binding code on its first run (call_locals still the
sentinel): allocates, default-constructs and records the offset. -/
theorem localsBind_first_eq (co : Coro) (ld : LocalsDecl)
    (hfld : co.call.func_locals = some ld)
    (hclNone : co.call.call_locals = CO_OFFSET_NONE)
    (p : Nat) (co1 : Coro)
    (halloc : _co_stack_alloc co ld.size ld.align = some (p, co1)) :
    localsBind co none co.call =
      some (setCS { co1 with mem := fun a =>
          if p ≤ a ∧ a < p + ld.size then ld.initByte (a - p) else co1.mem a }
        none { co.call with call_locals := _co_ptr_to_stack_offset co1 p }) := by
  simp only [localsBind, hfld, hclNone, halloc, if_true]
  rfl

/-- The locals-binding code once the offset is recorded: a no-op. -/
theorem localsBind_again_eq (co2 : Coro) (selfOff2 : Option Nat) (cs2 : CallState)
    (ld : LocalsDecl)
    (hfld2 : cs2.func_locals = some ld)
    (hcl2 : ¬cs2.call_locals = CO_OFFSET_NONE) :
    localsBind co2 selfOff2 cs2 = some co2 := by
  simp only [localsBind, hfld2, hcl2, if_false]

/-- With no active sub-call and the locals binding a no-op, an invocation is
the switch dispatch from the current resumption index into the body. -/
theorem invoke_dispatch_bound (fuel : Nat) (co : Coro) (ld : LocalsDecl)
    (hfld : co.call.func_locals = some ld)
    (hcl : ¬co.call.call_locals = CO_OFFSET_NONE)
    (hsc : co.call.sub_call = CO_OFFSET_NONE) :
    invoke (fuel + 1) co none =
      runStmts (fun c o => invoke fuel c (some o)) co none
        (co.call.func_body.drop co.call.state.toNat) co.call.state.toNat := by
  conv_lhs => unfold invoke
  simp only [getCS, localsBind_again_eq co none co.call ld hfld hcl, hsc, if_true]

/-- One co_resume of a root activation whose locals are already bound (the
engine's locals code is a no-op): the recorded locals offset never changes,
and when the statements the pass executes contain no store the memory is
byte-for-byte untouched. -/
theorem resume_step_bound_locals (p : List Stmt) (ld : LocalsDecl) (co : Coro)
    (j : Nat)
    (hb : co.call.func_body = p) (hfld : co.call.func_locals = some ld)
    (hcl : ¬co.call.call_locals = CO_OFFSET_NONE)
    (hsc : co.call.sub_call = CO_OFFSET_NONE)
    (hst : co.call.state = Int.ofNat j) (hnc : noCall p = true) :
    ∃ co', co_resume 1 co = some co' ∧
      co'.call.call_locals = co.call.call_locals ∧
      co'.call.func_locals = some ld ∧
      co'.stack_top = co.stack_top ∧
      (noStore (p.drop j) = true → co'.mem = co.mem) := by
  have hcw : co_completed co = false := co_completed_of_ofNat co j hst
  have hres : co_resume 1 co =
      runStmts (fun c o => invoke 0 c (some o)) { co with waiting := false } none
        (p.drop j) j := by
    unfold co_resume
    rw [hcw, if_neg Bool.false_ne_true]
    rw [invoke_dispatch_bound 0 { co with waiting := false } ld hfld hcl hsc]
    simp only [hb, hst, int_toNat_ofNat]
  obtain ⟨co', hrun, _, hfl2, _, hcl2, _, hstop, _, _, _, hmem, _⟩ :=
    runStmts_root_noCall (fun c o => invoke 0 c (some o)) (p.drop j)
      { co with waiting := false } j (noCall_drop p j hnc)
  refine ⟨co', by rw [hres]; exact hrun, hcl2, by rw [hfl2]; exact hfld, hstop,
    fun hns => by rw [hmem hns]⟩

/-- C8: the first invocation of an activation that declares locals (its
call_locals still the sentinel) allocates the aggregate at an aligned
location at or above the mark, default-constructs it there, records the
offset in the Call-State and changes nothing else of the activation's logic;
every later invocation of the binding code (offset already recorded) leaves
the coroutine entirely unchanged; and a later resume of such an activation
keeps the recorded offset and — when the executed statements store nothing —
the memory byte-for-byte, so mutations the body made in its locals are
retained for the engine never touches them again. -/
theorem locals_bound_once_persist
    (co co' : Coro) (ld : LocalsDecl) (k : Nat) (i : Nat)
    (hfld : co.call.func_locals = some ld) (hla : ld.align = 2 ^ k)
    (hclNone : co.call.call_locals = CO_OFFSET_NONE)
    (hk : k ≤ 32) (hnw : co.stack_top + 2 ^ k ≤ 2 ^ 64)
    (hoffsmall : co.stack_top + 2 ^ k ≤ co.stack + 2 ^ 32)
    (hfit : _co_align_up co.stack_top (2 ^ k) + ld.size ≤ co.stack + co.stack_size)
    (hbind : localsBind co none co.call = some co')
    (hi : i < ld.size)
    (co2 : Coro) (selfOff2 : Option Nat) (cs2 : CallState)
    (hcl2 : ¬cs2.call_locals = CO_OFFSET_NONE)
    (hfld2 : cs2.func_locals = some ld)
    (pR : List Stmt) (ldR : LocalsDecl) (coR coR' : Coro) (jR : Nat)
    (hbR : coR.call.func_body = pR) (hfldR : coR.call.func_locals = some ldR)
    (hclR : ¬coR.call.call_locals = CO_OFFSET_NONE)
    (hscR : coR.call.sub_call = CO_OFFSET_NONE)
    (hstR : coR.call.state = Int.ofNat jR) (hncR : noCall pR = true)
    (hnsR : noStore (pR.drop jR) = true)
    (hresR : co_resume 1 coR = some coR') :
    (co'.call.call_locals = _co_align_up co.stack_top (2 ^ k) - co.stack ∧
      _co_align_up co.stack_top (2 ^ k) % 2 ^ k = 0 ∧
      co.stack_top ≤ _co_align_up co.stack_top (2 ^ k) ∧
      co'.mem (_co_align_up co.stack_top (2 ^ k) + i) = ld.initByte i ∧
      co'.stack_top = _co_align_up co.stack_top (2 ^ k) + ld.size ∧
      co'.call.state = co.call.state ∧
      co'.call.func_body = co.call.func_body ∧
      co'.call.sub_call = co.call.sub_call ∧
      co'.call.call_args = co.call.call_args) ∧
    localsBind co2 selfOff2 cs2 = some co2 ∧
    (coR'.call.call_locals = coR.call.call_locals ∧ coR'.mem = coR.mem) := by
  have hk64 : k ≤ 64 := by omega
  have hge := align_up_pow2_ge co.stack_top k hk64 hnw
  have hmod := align_up_pow2_mod co.stack_top k hk64 hnw
  have hlt := align_up_pow2_lt co.stack_top k hk64 hnw
  refine ⟨?_, ?_, ?_⟩
  · have halloc : _co_stack_alloc co ld.size ld.align =
        some (_co_align_up co.stack_top (2 ^ k),
          { co with stack_top := _co_align_up co.stack_top (2 ^ k) + ld.size }) := by
      unfold _co_stack_alloc
      rw [hla, if_pos hfit]
    rw [localsBind_first_eq co ld hfld hclNone _ _ halloc] at hbind
    simp only [Option.some.injEq] at hbind
    subst hbind
    have hsmall : _co_align_up co.stack_top (2 ^ k) - co.stack < 2 ^ 32 := by
      omega
    refine ⟨?_, hmod, hge, ?_, rfl, rfl, rfl, rfl, rfl⟩
    · show (_co_align_up co.stack_top (2 ^ k) - co.stack) % 2 ^ 32 = _
      exact Nat.mod_eq_of_lt hsmall
    · show (if _co_align_up co.stack_top (2 ^ k) ≤ _co_align_up co.stack_top (2 ^ k) + i ∧
          _co_align_up co.stack_top (2 ^ k) + i <
            _co_align_up co.stack_top (2 ^ k) + ld.size
        then ld.initByte (_co_align_up co.stack_top (2 ^ k) + i -
          _co_align_up co.stack_top (2 ^ k))
        else co.mem (_co_align_up co.stack_top (2 ^ k) + i)) = ld.initByte i
      rw [if_pos ⟨by omega, by omega⟩]
      congr 1
      omega
  · exact localsBind_again_eq co2 selfOff2 cs2 ld hfld2 hcl2
  · obtain ⟨coX, hresX, hclX, _, _, hmemX⟩ :=
      resume_step_bound_locals pR ldR coR jR hbR hfldR hclR hscR hstR hncR
    rw [hresR] at hresX
    simp only [Option.some.injEq] at hresX
    subst hresX
    exact ⟨hclX, hmemX hnsR⟩

/-- A two-byte locals declaration, alignment 1, default byte 7, for witnesses. -/
def ldW : LocalsDecl := { size := 2, align := 1, initByte := fun _ => 7 }

/-- A coroutine before its first resume declaring ldW, for witnesses. -/
def coA : Coro := initCoro 8 16 (some ldW) [Stmt.syield] zmem

/-- coA after its locals were bound at location 8 (offset 0, mark moved to
10, block default-constructed with byte 7). -/
def coA' : Coro :=
  { call :=
      { func_locals := some ldW, func_body := [Stmt.syield], state := 0,
        sub_call := CO_OFFSET_NONE, call_locals := 0,
        call_args := CO_OFFSET_NONE },
    waiting := false, stack_size := 16, stack_top := 10, stack := 8,
    mem := fun a => if 8 ≤ a ∧ a < 10 then 7 else zmem a,
    frames := fun _ => none }

/-- A call-state whose locals are already bound, for witnesses. -/
def csB : CallState := { csNil with func_locals := some ldW, call_locals := 0 }

/-- A coroutine with bound locals holding byte 42 at location 8, about to run
its yield, for witnesses. -/
def coR : Coro :=
  { call :=
      { func_locals := some ldW, func_body := [Stmt.syield], state := 0,
        sub_call := CO_OFFSET_NONE, call_locals := 0,
        call_args := CO_OFFSET_NONE },
    waiting := false, stack_size := 16, stack_top := 10, stack := 8,
    mem := fun a => if a = 8 then 42 else 0, frames := fun _ => none }

/-- coR after one resume: suspended just past its yield, memory untouched. -/
def coR' : Coro :=
  { coR with call := { coR.call with state := Int.ofNat 1 } }

/-- C8 witness: the first binding of ldW on coA lands at location 8 with the
default byte 7 constructed, a second binding is a no-op, and the resume of
coR keeps offset and memory (the mutated byte 42 included). -/
theorem locals_bound_once_persist_witness :
    (coA'.call.call_locals = _co_align_up coA.stack_top (2 ^ 0) - coA.stack ∧
      _co_align_up coA.stack_top (2 ^ 0) % 2 ^ 0 = 0 ∧
      coA.stack_top ≤ _co_align_up coA.stack_top (2 ^ 0) ∧
      coA'.mem (_co_align_up coA.stack_top (2 ^ 0) + 1) = ldW.initByte 1 ∧
      coA'.stack_top = _co_align_up coA.stack_top (2 ^ 0) + ldW.size ∧
      coA'.call.state = coA.call.state ∧
      coA'.call.func_body = coA.call.func_body ∧
      coA'.call.sub_call = coA.call.sub_call ∧
      coA'.call.call_args = coA.call.call_args) ∧
    localsBind coW none csB = some coW ∧
    (coR'.call.call_locals = coR.call.call_locals ∧ coR'.mem = coR.mem) :=
  locals_bound_once_persist coA coA' ldW 0 1
    rfl rfl rfl (by decide) (by decide) (by decide) (by decide)
    (by rfl) (by decide)
    coW none csB (by decide) rfl
    [Stmt.syield] ldW coR coR' 0
    rfl rfl (by decide) rfl rfl (by decide) (by decide) (by rfl)

/-- Inversion of a successful _co_stack_alloc. -/
theorem _co_stack_alloc_some (co : Coro) (size align p : Nat) (co1 : Coro)
    (h : _co_stack_alloc co size align = some (p, co1)) :
    p = _co_align_up co.stack_top align ∧ co1 = { co with stack_top := p + size } := by
  simp only [_co_stack_alloc] at h
  split at h
  · simp only [Option.some.injEq, Prod.mk.injEq] at h
    exact ⟨h.1.symm, by rw [← h.2, ← h.1]⟩
  · exact absurd h (by simp)

/-- Inversion of a successful _co_stack_rewind. -/
theorem _co_stack_rewind_some (co : Coro) (ptr : Nat) (co' : Coro)
    (h : _co_stack_rewind co ptr = some co') :
    co' = { co with stack_top := ptr } := by
  simp only [_co_stack_rewind] at h
  split at h
  · simp only [Option.some.injEq] at h
    exact h.symm
  · exact absurd h (by simp)

/-- The call-state _co_init_call_state builds before any argument handling. -/
def freshCS (fl : Option LocalsDecl) (fb : List Stmt) : CallState :=
  { func_locals := fl, func_body := fb, state := 0,
    sub_call := CO_OFFSET_NONE, call_locals := CO_OFFSET_NONE,
    call_args := CO_OFFSET_NONE }

/-- _co_init_call_state with no argument: the fresh call-state, coroutine
untouched. -/
theorem _co_init_call_state_noarg (co : Coro) (fl : Option LocalsDecl)
    (fb : List Stmt) :
    _co_init_call_state co fl fb none = some (freshCS fl fb, co) := rfl

/-- Inversion of a successful _co_init_call_state: the call-state runs the
given function from its start with no sub-call, and the coroutine's call,
waiting flag and frames are untouched (only mark and memory may move, for the
argument copy). -/
theorem _co_init_call_state_some (co : Coro) (fl : Option LocalsDecl)
    (fb : List Stmt) (arg : Option (List Nat × Nat)) (cs : CallState) (co' : Coro)
    (h : _co_init_call_state co fl fb arg = some (cs, co')) :
    cs.func_locals = fl ∧ cs.func_body = fb ∧ cs.state = 0 ∧
    cs.sub_call = CO_OFFSET_NONE ∧
    co'.waiting = co.waiting ∧ co'.call = co.call ∧ co'.frames = co.frames ∧
    co'.stack = co.stack ∧ co'.stack_size = co.stack_size := by
  match arg with
  | none =>
    rw [_co_init_call_state_noarg] at h
    simp only [Option.some.injEq, Prod.mk.injEq] at h
    obtain ⟨h1, h2⟩ := h
    subst h2
    rw [← h1]
    exact ⟨rfl, rfl, rfl, rfl, rfl, rfl, rfl, rfl, rfl⟩
  | some (bytes, al) =>
    simp only [_co_init_call_state] at h
    split at h
    · exact absurd h (by simp)
    · split at h
      · exact absurd h (by simp)
      · rename_i p co1 halloc
        obtain ⟨hp, hco1⟩ := _co_stack_alloc_some co bytes.length al p co1 halloc
        simp only [Option.some.injEq, Prod.mk.injEq] at h
        obtain ⟨h1, h2⟩ := h
        subst h2
        rw [← h1, hco1]
        exact ⟨rfl, rfl, rfl, rfl, rfl, rfl, rfl, rfl, rfl⟩

mutual
/-- A statement that never executes co_wait, sub-calls included. -/
def noWaitS : Stmt → Bool
  | Stmt.swait => false
  | Stmt.scall _ fb _ => noWaitL fb
  | _ => true

/-- A body whose statements never execute co_wait, sub-calls included. -/
def noWaitL : List Stmt → Bool
  | [] => true
  | s :: r => noWaitS s && noWaitL r
end

/-- noWaitL restricts to suffixes. -/
theorem noWaitL_drop (n : Nat) : ∀ (l : List Stmt), noWaitL l = true →
    noWaitL (l.drop n) = true := by
  induction n with
  | zero => intro l h; exact h
  | succ n ihn =>
    intro l h
    match l with
    | [] => exact h
    | s :: r =>
      rw [noWaitL] at h
      rw [Bool.and_eq_true] at h
      exact ihn r h.2

/-- Every frame stored on the stack runs a wait-free body, and so does the
root: no reachable statement is a co_wait. -/
def allWaitFree (co : Coro) : Prop :=
  noWaitL co.call.func_body = true ∧
  ∀ o cs, co.frames o = some cs → noWaitL cs.func_body = true

/-- setCS leaves the waiting flag alone. -/
theorem setCS_waiting (co : Coro) (selfOff : Option Nat) (cs : CallState) :
    (setCS co selfOff cs).waiting = co.waiting := by
  cases selfOff <;> rfl

/-- The current activation's body is wait-free whenever the whole coroutine
is. -/
theorem noWait_of_getCS (co : Coro) (selfOff : Option Nat) (cs : CallState)
    (hg : getCS co selfOff = some cs) (hW : allWaitFree co) :
    noWaitL cs.func_body = true := by
  cases selfOff with
  | none =>
    simp only [getCS, Option.some.injEq] at hg
    rw [← hg]
    exact hW.1
  | some off =>
    simp only [getCS] at hg
    exact hW.2 off cs hg

/-- setCS with a wait-free call-state keeps allWaitFree. -/
theorem allWaitFree_setCS (co : Coro) (selfOff : Option Nat) (cs' : CallState)
    (hW : allWaitFree co) (hbody : noWaitL cs'.func_body = true) :
    allWaitFree (setCS co selfOff cs') := by
  obtain ⟨hroot, hfr⟩ := hW
  cases selfOff with
  | none =>
    exact ⟨hbody, fun o c hc => hfr o c hc⟩
  | some off =>
    refine ⟨hroot, ?_⟩
    intro o c hc
    simp only [setCS] at hc
    by_cases ho : o = off
    · rw [if_pos ho] at hc
      simp only [Option.some.injEq] at hc
      rw [← hc]
      exact hbody
    · rw [if_neg ho] at hc
      exact hfr o c hc

/-- The locals-binding code preserves the waiting flag and the wait-free
invariant. -/
theorem localsBind_preserves (co : Coro) (selfOff : Option Nat) (cs : CallState)
    (co1 : Coro) (hg : getCS co selfOff = some cs)
    (h : localsBind co selfOff cs = some co1) :
    co1.waiting = co.waiting ∧ (allWaitFree co → allWaitFree co1) := by
  unfold localsBind at h
  split at h
  · simp only [Option.some.injEq] at h
    subst h
    exact ⟨rfl, id⟩
  · rename_i ld hfl
    split at h
    · split at h
      · exact absurd h (by simp)
      · rename_i p coX halloc
        obtain ⟨hp, hcoX⟩ := _co_stack_alloc_some co ld.size ld.align p coX halloc
        simp only [Option.some.injEq] at h
        subst h
        constructor
        · rw [setCS_waiting]
          rw [hcoX]
        · intro hW
          refine allWaitFree_setCS _ selfOff _ ?_ ?_
          · constructor
            · show noWaitL coX.call.func_body = true
              rw [hcoX]
              exact hW.1
            · intro o c hc
              rw [hcoX] at hc
              exact hW.2 o c hc
          · show noWaitL cs.func_body = true
            exact noWait_of_getCS co selfOff cs hg hW
    · simp only [Option.some.injEq] at h
      subst h
      exact ⟨rfl, id⟩

/-- Unfolding of the co_call arm of a body pass: _co_call allocates the
call-state frame, initializes it, links it, and drives it once; a completed
sub-call is rewound and cleared and the body continues past the call site,
an incomplete one makes the calling activation yield at the call site. -/
theorem runStmts_scall_eq (si : Coro → Nat → Option Coro) (co : Coro)
    (selfOff : Option Nat) (cs : CallState) (fl : Option LocalsDecl)
    (fb : List Stmt) (arg : Option (List Nat × Nat)) (rest : List Stmt)
    (idx : Nat) (p : Nat) (co1 : Coro) (subcs : CallState) (co2 : Coro)
    (hg : getCS co selfOff = some cs)
    (halloc : _co_stack_alloc co sizeof_coro_call_state alignof_coro_call_state =
      some (p, co1))
    (hinit : _co_init_call_state co1 fl fb arg = some (subcs, co2)) :
    runStmts si co selfOff (Stmt.scall fl fb arg :: rest) idx =
      match si (setCS { co2 with frames := fun o => if o = _co_ptr_to_stack_offset co2 p then some subcs else co2.frames o } selfOff { cs with sub_call := _co_ptr_to_stack_offset co2 p }) (_co_ptr_to_stack_offset co2 p) with
      | none => none
      | some co5 =>
        match co5.frames (_co_ptr_to_stack_offset co2 p) with
        | none => none
        | some sub =>
          if sub.state = CORO_STATE_COMPLETED then
            match _co_stack_rewind co5 (_co_stack_offset_to_ptr co5 (_co_ptr_to_stack_offset co2 p)) with
            | none => none
            | some co6 =>
              match getCS co6 selfOff with
              | none => none
              | some cs6 =>
                runStmts si (setCS co6 selfOff { cs6 with sub_call := CO_OFFSET_NONE }) selfOff rest (idx + 1)
          else
            match getCS co5 selfOff with
            | none => none
            | some cs5 =>
              some (setCS co5 selfOff { cs5 with state := Int.ofNat (idx + 1) }) := by
  conv_lhs => unfold runStmts
  simp only [hg, halloc, hinit]

/-- A pass over wait-free statements, with a sub-invoker that preserves the
clear flag and the wait-free invariant, never raises the waiting flag. -/
theorem runStmts_noWait (si : Coro → Nat → Option Coro)
    (hsi : ∀ c o c', c.waiting = false → allWaitFree c → si c o = some c' →
      c'.waiting = false ∧ allWaitFree c') :
    ∀ (s : List Stmt) (co : Coro) (selfOff : Option Nat) (idx : Nat) (co' : Coro),
      noWaitL s = true → co.waiting = false → allWaitFree co →
      runStmts si co selfOff s idx = some co' →
      co'.waiting = false ∧ allWaitFree co' := by
  intro s
  induction s with
  | nil =>
    intro co selfOff idx co' _ hw hW hrun
    unfold runStmts at hrun
    cases hg : getCS co selfOff with
    | none => rw [hg] at hrun; exact absurd hrun (by simp)
    | some cs =>
      rw [hg] at hrun
      simp only [Option.some.injEq] at hrun
      subst hrun
      exact ⟨by rw [setCS_waiting]; exact hw,
        allWaitFree_setCS _ selfOff _ hW (noWait_of_getCS co selfOff cs hg hW)⟩
  | cons st r ih =>
    intro co selfOff idx co' hs hw hW hrun
    have hsr : noWaitS st = true ∧ noWaitL r = true := by
      rw [noWaitL, Bool.and_eq_true] at hs
      exact hs
    cases hg : getCS co selfOff with
    | none =>
      unfold runStmts at hrun
      simp only [hg] at hrun
      exact absurd hrun (by simp)
    | some cs =>
      cases st with
      | swait =>
        rw [noWaitS] at hsr
        exact absurd hsr.1 (by simp)
      | syield =>
        unfold runStmts at hrun
        simp only [hg, Option.some.injEq] at hrun
        subst hrun
        exact ⟨by rw [setCS_waiting]; exact hw,
          allWaitFree_setCS _ selfOff _ hW (noWait_of_getCS co selfOff cs hg hW)⟩
      | sexit =>
        unfold runStmts at hrun
        simp only [hg, Option.some.injEq] at hrun
        subst hrun
        exact ⟨by rw [setCS_waiting]; exact hw,
          allWaitFree_setCS _ selfOff _ hW (noWait_of_getCS co selfOff cs hg hW)⟩
      | store off val =>
        unfold runStmts at hrun
        simp only [hg] at hrun
        refine ih _ selfOff (idx + 1) co' hsr.2 ?_ ?_ hrun
        · exact hw
        · exact hW
      | scall fl fb arg =>
        have hfb : noWaitL fb = true := by
          have h1 := hsr.1
          rw [noWaitS] at h1
          exact h1
        cases halloc : _co_stack_alloc co sizeof_coro_call_state alignof_coro_call_state with
        | none =>
          unfold runStmts at hrun
          simp only [hg, halloc] at hrun
          exact absurd hrun (by simp)
        | some pc =>
        obtain ⟨p, co1⟩ := pc
        obtain ⟨hp, hco1⟩ := _co_stack_alloc_some co _ _ p co1 halloc
        cases hinit : _co_init_call_state co1 fl fb arg with
        | none =>
          unfold runStmts at hrun
          simp only [hg, halloc, hinit] at hrun
          exact absurd hrun (by simp)
        | some sc =>
        obtain ⟨subcs, co2⟩ := sc
        rw [runStmts_scall_eq si co selfOff cs fl fb arg r idx p co1 subcs co2 hg halloc hinit] at hrun
        obtain ⟨_, hsfb, _, _, hw2, hcall2, hfr2, _, _⟩ :=
          _co_init_call_state_some co1 fl fb arg subcs co2 hinit
        have hw2' : co2.waiting = false := by
          rw [hw2, hco1]
          exact hw
        have hW4 : allWaitFree (setCS { co2 with frames := fun o => if o = _co_ptr_to_stack_offset co2 p then some subcs else co2.frames o } selfOff { cs with sub_call := _co_ptr_to_stack_offset co2 p }) := by
          refine allWaitFree_setCS _ selfOff _ ?_ ?_
          · constructor
            · show noWaitL co2.call.func_body = true
              rw [hcall2, hco1]
              exact hW.1
            · intro o c hc
              have hc2 : (if o = _co_ptr_to_stack_offset co2 p then some subcs else co2.frames o) = some c := hc
              by_cases ho : o = _co_ptr_to_stack_offset co2 p
              · rw [if_pos ho] at hc2
                simp only [Option.some.injEq] at hc2
                rw [← hc2, hsfb]
                exact hfb
              · rw [if_neg ho] at hc2
                rw [hfr2, hco1] at hc2
                exact hW.2 o c hc2
          · show noWaitL cs.func_body = true
            exact noWait_of_getCS co selfOff cs hg hW
        have hw4 : (setCS { co2 with frames := fun o => if o = _co_ptr_to_stack_offset co2 p then some subcs else co2.frames o } selfOff { cs with sub_call := _co_ptr_to_stack_offset co2 p }).waiting = false := by
          rw [setCS_waiting]
          exact hw2'
        cases hrun5 : si (setCS { co2 with frames := fun o => if o = _co_ptr_to_stack_offset co2 p then some subcs else co2.frames o } selfOff { cs with sub_call := _co_ptr_to_stack_offset co2 p }) (_co_ptr_to_stack_offset co2 p) with
        | none => simp only [hrun5] at hrun; exact absurd hrun (by simp)
        | some co5 =>
        simp only [hrun5] at hrun
        obtain ⟨hw5, hW5⟩ := hsi _ _ co5 hw4 hW4 hrun5
        cases hsub : co5.frames (_co_ptr_to_stack_offset co2 p) with
        | none => simp only [hsub] at hrun; exact absurd hrun (by simp)
        | some sub =>
        simp only [hsub] at hrun
        by_cases hcompl : sub.state = CORO_STATE_COMPLETED
        · rw [if_pos hcompl] at hrun
          cases hrew : _co_stack_rewind co5 (_co_stack_offset_to_ptr co5 (_co_ptr_to_stack_offset co2 p)) with
          | none => simp only [hrew] at hrun; exact absurd hrun (by simp)
          | some co6 =>
          simp only [hrew] at hrun
          have hco6 := _co_stack_rewind_some co5 _ co6 hrew
          cases hg6 : getCS co6 selfOff with
          | none => simp only [hg6] at hrun; exact absurd hrun (by simp)
          | some cs6 =>
          simp only [hg6] at hrun
          have hw6 : co6.waiting = false := by
            rw [hco6]
            exact hw5
          have hW6 : allWaitFree co6 := by
            rw [hco6]
            exact hW5
          refine ih _ selfOff (idx + 1) co' hsr.2 ?_ ?_ hrun
          · rw [setCS_waiting]
            exact hw6
          · exact allWaitFree_setCS _ selfOff _ hW6
              (noWait_of_getCS co6 selfOff cs6 hg6 hW6)
        · rw [if_neg hcompl] at hrun
          cases hg5 : getCS co5 selfOff with
          | none => simp only [hg5] at hrun; exact absurd hrun (by simp)
          | some cs5 =>
          simp only [hg5, Option.some.injEq] at hrun
          subst hrun
          exact ⟨by rw [setCS_waiting]; exact hw5,
            allWaitFree_setCS _ selfOff _ hW5
              (noWait_of_getCS co5 selfOff cs5 hg5 hW5)⟩

/-- A full invocation of a coroutine whose reachable bodies are wait-free
never raises the waiting flag: co_wait is the only primitive that sets it. -/
theorem invoke_noWait : ∀ (fuel : Nat) (co : Coro) (selfOff : Option Nat) (co' : Coro),
    co.waiting = false → allWaitFree co →
    invoke fuel co selfOff = some co' →
    co'.waiting = false ∧ allWaitFree co' := by
  intro fuel
  induction fuel with
  | zero =>
    intro co selfOff co' _ _ h
    simp [invoke] at h
  | succ fuel ih =>
    intro co selfOff co' hw hW hinv
    unfold invoke at hinv
    cases hg : getCS co selfOff with
    | none => simp only [hg] at hinv; exact absurd hinv (by simp)
    | some cs =>
    simp only [hg] at hinv
    cases hlb : localsBind co selfOff cs with
    | none => simp only [hlb] at hinv; exact absurd hinv (by simp)
    | some co1 =>
    simp only [hlb] at hinv
    obtain ⟨hw1, hW1f⟩ := localsBind_preserves co selfOff cs co1 hg hlb
    have hw1' : co1.waiting = false := by rw [hw1]; exact hw
    have hW1 : allWaitFree co1 := hW1f hW
    cases hg1 : getCS co1 selfOff with
    | none => simp only [hg1] at hinv; exact absurd hinv (by simp)
    | some cs1 =>
    simp only [hg1] at hinv
    by_cases hsc : cs1.sub_call = CO_OFFSET_NONE
    · rw [if_pos hsc] at hinv
      exact runStmts_noWait (fun c o => invoke fuel c (some o))
        (fun c o c' hcw hcW hc => ih c (some o) c' hcw hcW hc)
        _ co1 selfOff _ co'
        (noWaitL_drop _ _ (noWait_of_getCS co1 selfOff cs1 hg1 hW1))
        hw1' hW1 hinv
    · rw [if_neg hsc] at hinv
      cases hs2 : invoke fuel co1 (some cs1.sub_call) with
      | none => simp only [hs2] at hinv; exact absurd hinv (by simp)
      | some co2 =>
      simp only [hs2] at hinv
      obtain ⟨hw2, hW2⟩ := ih co1 (some cs1.sub_call) co2 hw1' hW1 hs2
      cases hsub : co2.frames cs1.sub_call with
      | none => simp only [hsub] at hinv; exact absurd hinv (by simp)
      | some sub =>
      simp only [hsub] at hinv
      by_cases hcompl : sub.state = CORO_STATE_COMPLETED
      · rw [if_pos hcompl] at hinv
        cases hrew : _co_stack_rewind co2 (_co_stack_offset_to_ptr co2 cs1.sub_call) with
        | none => simp only [hrew] at hinv; exact absurd hinv (by simp)
        | some co3 =>
        simp only [hrew] at hinv
        have hco3 := _co_stack_rewind_some co2 _ co3 hrew
        have hw3 : co3.waiting = false := by rw [hco3]; exact hw2
        have hW3 : allWaitFree co3 := by rw [hco3]; exact hW2
        cases hg3 : getCS co3 selfOff with
        | none => simp only [hg3] at hinv; exact absurd hinv (by simp)
        | some cs3 =>
        simp only [hg3] at hinv
        refine runStmts_noWait (fun c o => invoke fuel c (some o))
          (fun c o c' hcw hcW hc => ih c (some o) c' hcw hcW hc)
          _ _ selfOff _ co' ?_ ?_ ?_ hinv
        · exact noWaitL_drop _ _ (noWait_of_getCS co3 selfOff cs3 hg3 hW3)
        · rw [setCS_waiting]
          exact hw3
        · exact allWaitFree_setCS _ selfOff _ hW3
            (noWait_of_getCS co3 selfOff cs3 hg3 hW3)
      · rw [if_neg hcompl] at hinv
        simp only [Option.some.injEq] at hinv
        subst hinv
        exact ⟨hw2, hW2⟩

/-- Reading back the call-state just written. -/
theorem getCS_setCS (co : Coro) (selfOff : Option Nat) (cs : CallState) :
    getCS (setCS co selfOff cs) selfOff = some cs := by
  cases selfOff with
  | none => rfl
  | some off => simp [getCS, setCS]

/-- Writing a frame leaves the other frames alone. -/
theorem setCS_frames_ne (co : Coro) (off : Nat) (cs : CallState) (o2 : Nat)
    (h : ¬o2 = off) :
    (setCS co (some off) cs).frames o2 = co.frames o2 := by
  simp [setCS, h]

/-- Writing a frame leaves the root call alone. -/
theorem setCS_some_call (co : Coro) (off : Nat) (cs : CallState) :
    (setCS co (some off) cs).call = co.call := rfl

/-- With no active sub-call and no locals declaration, an invocation of any
activation is the switch dispatch from its resumption index into its body. -/
theorem invoke_dispatch_any (fuel : Nat) (co : Coro) (selfOff : Option Nat)
    (cs : CallState) (hg : getCS co selfOff = some cs)
    (hfl : cs.func_locals = none) (hsc : cs.sub_call = CO_OFFSET_NONE) :
    invoke (fuel + 1) co selfOff =
      runStmts (fun c o => invoke fuel c (some o)) co selfOff
        (cs.func_body.drop cs.state.toNat) cs.state.toNat := by
  conv_lhs => unfold invoke
  simp only [hg, localsBind, hfl, hsc, if_true]

/-- co_wait sets the root's waiting flag at once and yields: the activation
records the resumption point just after the wait and control returns with the
flag raised. -/
theorem runStmts_swait_eq (si : Coro → Nat → Option Coro) (co : Coro)
    (selfOff : Option Nat) (cs : CallState) (rest : List Stmt) (idx : Nat)
    (hg : getCS co selfOff = some cs) :
    runStmts si co selfOff (Stmt.swait :: rest) idx =
      some (setCS { co with waiting := true } selfOff
        { cs with state := Int.ofNat (idx + 1) }) := by
  conv_lhs => unfold runStmts
  simp only [hg]

/-- A chain of coroutines nested d sub-calls deep whose innermost body
waits. -/
def nestWait : Nat → List Stmt
  | 0 => [Stmt.swait]
  | d + 1 => [Stmt.scall none (nestWait d) none]


/-- Driving a nest of sub-calls whose innermost body waits: one invocation of
the outermost activation reaches the innermost wait, the root's waiting flag
is raised, the activation suspends at the resumption point after its first
statement (id 1, not completed), the root call field is untouched for nested
activations, and frames below the activation's own are untouched. -/
theorem nestWait_invoke : ∀ (d : Nat) (co : Coro) (selfOff : Option Nat)
    (cs : CallState),
    getCS co selfOff = some cs →
    cs.func_body = nestWait d → cs.func_locals = none → cs.state = 0 →
    cs.sub_call = CO_OFFSET_NONE →
    co.stack_top % 8 = 0 →
    co.stack ≤ co.stack_top →
    co.stack_top + 32 * (d + 1) ≤ co.stack + co.stack_size →
    co.stack_size < 2 ^ 32 →
    co.stack + co.stack_size + 8 ≤ 2 ^ 64 →
    (∀ o, selfOff = some o → co.stack + o < co.stack_top) →
    ∃ co', invoke (d + 1) co selfOff = some co' ∧ co'.waiting = true ∧
      (∃ cs', getCS co' selfOff = some cs' ∧ cs'.state = Int.ofNat 1) ∧
      (∀ o, selfOff = some o → co'.call = co.call) ∧
      (∀ o o2, selfOff = some o → o2 < o → co'.frames o2 = co.frames o2) := by
  intro d
  induction d with
  | zero =>
    intro co selfOff cs hg hb hfl hst hsc _ _ _ _ _ _
    refine ⟨setCS { co with waiting := true } selfOff { cs with state := Int.ofNat 1 },
      ?_, ?_, ?_, ?_, ?_⟩
    · rw [invoke_dispatch_any 0 co selfOff cs hg hfl hsc, hb, hst]
      show runStmts _ co selfOff ((nestWait 0).drop 0) 0 = _
      rw [List.drop_zero]
      show runStmts _ co selfOff [Stmt.swait] 0 = _
      rw [runStmts_swait_eq _ co selfOff cs [] 0 hg]
      rw [hb]
    · rw [setCS_waiting]
    · exact ⟨{ cs with state := Int.ofNat 1 }, getCS_setCS _ selfOff _, rfl⟩
    · intro o ho
      subst ho
      rw [setCS_some_call]
    · intro o o2 ho hlt
      subst ho
      exact setCS_frames_ne _ o _ o2 (by omega)
  | succ d ihd =>
    intro co selfOff cs hg hb hfl hst hsc halign hbase hfit hsz32 hnw hself
    have halloc : _co_stack_alloc co sizeof_coro_call_state alignof_coro_call_state =
        some (co.stack_top, { co with stack_top := co.stack_top + sizeof_coro_call_state }) := by
      simp only [_co_stack_alloc]
      have h8 : _co_align_up co.stack_top alignof_coro_call_state = co.stack_top := by
        have h2 : alignof_coro_call_state = 2 ^ 3 := by decide
        rw [h2]
        exact align_up_pow2_self co.stack_top 3 (by omega) (by omega) halign
      rw [h8, if_pos (by unfold sizeof_coro_call_state; omega)]
    have hinit : _co_init_call_state { co with stack_top := co.stack_top + sizeof_coro_call_state } none (nestWait d) none =
        some ((freshCS none (nestWait d)), { co with stack_top := co.stack_top + sizeof_coro_call_state }) :=
      _co_init_call_state_noarg _ none (nestWait d)
    have hoffv : _co_ptr_to_stack_offset { co with stack_top := co.stack_top + sizeof_coro_call_state } co.stack_top = (co.stack_top - co.stack) := by
      unfold _co_ptr_to_stack_offset
      show (co.stack_top - co.stack) % 2 ^ 32 = co.stack_top - co.stack
      exact Nat.mod_eq_of_lt (by omega)
    have hco4top : ((setCS { { co with stack_top := co.stack_top + sizeof_coro_call_state } with frames := fun o => if o = (co.stack_top - co.stack) then some (freshCS none (nestWait d)) else ({ co with stack_top := co.stack_top + sizeof_coro_call_state } : Coro).frames o } selfOff { cs with sub_call := (co.stack_top - co.stack) }) : Coro).stack_top = co.stack_top + sizeof_coro_call_state := by
      cases selfOff <;> rfl
    have hco4stack : ((setCS { { co with stack_top := co.stack_top + sizeof_coro_call_state } with frames := fun o => if o = (co.stack_top - co.stack) then some (freshCS none (nestWait d)) else ({ co with stack_top := co.stack_top + sizeof_coro_call_state } : Coro).frames o } selfOff { cs with sub_call := (co.stack_top - co.stack) }) : Coro).stack = co.stack := by
      cases selfOff <;> rfl
    have hco4size : ((setCS { { co with stack_top := co.stack_top + sizeof_coro_call_state } with frames := fun o => if o = (co.stack_top - co.stack) then some (freshCS none (nestWait d)) else ({ co with stack_top := co.stack_top + sizeof_coro_call_state } : Coro).frames o } selfOff { cs with sub_call := (co.stack_top - co.stack) }) : Coro).stack_size = co.stack_size := by
      cases selfOff <;> rfl
    have hco4g : getCS (setCS { { co with stack_top := co.stack_top + sizeof_coro_call_state } with frames := fun o => if o = (co.stack_top - co.stack) then some (freshCS none (nestWait d)) else ({ co with stack_top := co.stack_top + sizeof_coro_call_state } : Coro).frames o } selfOff { cs with sub_call := (co.stack_top - co.stack) }) (some (co.stack_top - co.stack)) = some (freshCS none (nestWait d)) := by
      cases selfOff with
      | none => simp [getCS, setCS]
      | some o =>
        have ho : co.stack + o < co.stack_top := hself o rfl
        have hne : ¬(co.stack_top - co.stack) = o := by omega
        simp [getCS, setCS, hne]
    obtain ⟨co5, hIH, hw5, ⟨cs5s, hg5, hst5⟩, hcall5, hfr5⟩ :=
      ihd (setCS { { co with stack_top := co.stack_top + sizeof_coro_call_state } with frames := fun o => if o = (co.stack_top - co.stack) then some (freshCS none (nestWait d)) else ({ co with stack_top := co.stack_top + sizeof_coro_call_state } : Coro).frames o } selfOff { cs with sub_call := (co.stack_top - co.stack) }) (some (co.stack_top - co.stack)) (freshCS none (nestWait d)) hco4g rfl rfl rfl rfl
        (by rw [hco4top]; unfold sizeof_coro_call_state; omega)
        (by rw [hco4stack, hco4top]; unfold sizeof_coro_call_state; omega)
        (by rw [hco4stack, hco4top, hco4size]; unfold sizeof_coro_call_state; omega)
        (by rw [hco4size]; exact hsz32)
        (by rw [hco4stack, hco4size]; exact hnw)
        (by intro o ho2; injection ho2 with ho2; subst ho2; rw [hco4stack, hco4top]; unfold sizeof_coro_call_state; omega)
    have hfrOFF : co5.frames (co.stack_top - co.stack) = some cs5s := hg5
    have hgP : getCS co5 selfOff = some { cs with sub_call := (co.stack_top - co.stack) } := by
      cases selfOff with
      | none =>
        show some co5.call = _
        rw [hcall5 (co.stack_top - co.stack) rfl]
        rfl
      | some o =>
        have ho : co.stack + o < co.stack_top := hself o rfl
        show co5.frames o = _
        rw [hfr5 (co.stack_top - co.stack) o rfl (by omega)]
        show (setCS { { co with stack_top := co.stack_top + sizeof_coro_call_state } with frames := fun o => if o = (co.stack_top - co.stack) then some (freshCS none (nestWait d)) else ({ co with stack_top := co.stack_top + sizeof_coro_call_state } : Coro).frames o } (some o) { cs with sub_call := (co.stack_top - co.stack) }).frames o = _
        exact getCS_setCS _ (some o) _
    refine ⟨setCS co5 selfOff { cs with sub_call := (co.stack_top - co.stack), state := Int.ofNat 1 },
      ?_, ?_, ?_, ?_, ?_⟩
    · rw [invoke_dispatch_any (d + 1) co selfOff cs hg hfl hsc, hb, hst]
      show runStmts _ co selfOff ((nestWait (d + 1)).drop 0) 0 = _
      rw [List.drop_zero]
      show runStmts _ co selfOff [Stmt.scall none (nestWait d) none] 0 = _
      rw [runStmts_scall_eq _ co selfOff cs none (nestWait d) none [] 0
        co.stack_top { co with stack_top := co.stack_top + sizeof_coro_call_state } (freshCS none (nestWait d)) { co with stack_top := co.stack_top + sizeof_coro_call_state } hg halloc hinit]
      simp only [hoffv]
      simp only [hIH]
      simp only [hfrOFF]
      rw [if_neg (by rw [hst5]; decide)]
      simp only [hgP]
      rw [hb]
    · rw [setCS_waiting]
      exact hw5
    · exact ⟨{ cs with sub_call := (co.stack_top - co.stack), state := Int.ofNat 1 }, getCS_setCS _ selfOff _, rfl⟩
    · intro o ho
      subst ho
      show co5.call = co.call
      rw [hcall5 (co.stack_top - co.stack) rfl]
      rfl
    · intro o o2 ho hlt
      subst ho
      have ho : co.stack + o < co.stack_top := hself o rfl
      rw [setCS_frames_ne _ o _ o2 (by omega)]
      rw [hfr5 (co.stack_top - co.stack) o2 rfl (by omega)]
      rw [setCS_frames_ne _ o _ o2 (by omega)]
      show (if o2 = (co.stack_top - co.stack) then some (freshCS none (nestWait d)) else co.frames o2) = co.frames o2
      rw [if_neg (by omega)]

/-- C4: every resume clears the root's waiting flag on entry, before any
coroutine code runs — the result of a resume does not depend on the previous
flag at all; co_wait is the only primitive that sets it — a resume of a
coroutine none of whose reachable bodies contains a wait always ends with the
flag down, while executing a wait raises the root's flag at once; and a wait
buried d sub-calls deep is visible at the root after a single resume of the
root, for every depth d. -/
theorem waiting_flag_semantics (fuel1 : Nat) (co1cl : Coro) (b1 b2 : Bool)
    (fuelF : Nat) (coF coF' : Coro)
    (hWF : allWaitFree coF) (hresF : co_resume fuelF coF = some coF')
    (si3 : Coro → Nat → Option Coro) (co3 : Coro) (selfOff3 : Option Nat)
    (cs3 : CallState) (rest3 : List Stmt) (idx3 : Nat)
    (hg3 : getCS co3 selfOff3 = some cs3)
    (d : Nat) (hd : 32 * (d + 1) < 2 ^ 32) :
    co_resume fuel1 { co1cl with waiting := b1 } =
      co_resume fuel1 { co1cl with waiting := b2 } ∧
    co_waiting coF' = false ∧
    (runStmts si3 co3 selfOff3 (Stmt.swait :: rest3) idx3 =
      some (setCS { co3 with waiting := true } selfOff3
        { cs3 with state := Int.ofNat (idx3 + 1) }) ∧
      co_waiting (setCS { co3 with waiting := true } selfOff3
        { cs3 with state := Int.ofNat (idx3 + 1) }) = true) ∧
    (co_resume (d + 1) (initCoro 8 (32 * (d + 1)) none (nestWait d) zmem)).map
      co_waiting = some true := by
  refine ⟨rfl, ?_, ⟨runStmts_swait_eq si3 co3 selfOff3 cs3 rest3 idx3 hg3, ?_⟩, ?_⟩
  · cases hc : co_completed coF with
    | true =>
      unfold co_resume at hresF
      rw [hc, if_pos rfl] at hresF
      exact absurd hresF (by simp)
    | false =>
      unfold co_resume at hresF
      rw [hc, if_neg Bool.false_ne_true] at hresF
      have := invoke_noWait fuelF { coF with waiting := false } none coF' rfl hWF hresF
      exact this.1
  · show (setCS { co3 with waiting := true } selfOff3 _).waiting = true
    rw [setCS_waiting]
  · have hcompl : co_completed (initCoro 8 (32 * (d + 1)) none (nestWait d) zmem) = false :=
      co_completed_of_ofNat _ 0 rfl
    have h6 : ({ initCoro 8 (32 * (d + 1)) none (nestWait d) zmem with
        waiting := false } : Coro).stack_top % 8 = 0 := by
      show (8 : Nat) % 8 = 0; decide
    have h7 : ({ initCoro 8 (32 * (d + 1)) none (nestWait d) zmem with
        waiting := false } : Coro).stack ≤ ({ initCoro 8 (32 * (d + 1)) none
        (nestWait d) zmem with waiting := false } : Coro).stack_top := by
      show (8 : Nat) ≤ 8; omega
    have h8 : ({ initCoro 8 (32 * (d + 1)) none (nestWait d) zmem with
        waiting := false } : Coro).stack_top + 32 * (d + 1) ≤
        ({ initCoro 8 (32 * (d + 1)) none (nestWait d) zmem with
        waiting := false } : Coro).stack + ({ initCoro 8 (32 * (d + 1)) none
        (nestWait d) zmem with waiting := false } : Coro).stack_size := by
      show 8 + 32 * (d + 1) ≤ 8 + 32 * (d + 1); omega
    have h9 : ({ initCoro 8 (32 * (d + 1)) none (nestWait d) zmem with
        waiting := false } : Coro).stack_size < 2 ^ 32 := by
      show 32 * (d + 1) < 2 ^ 32; exact hd
    have h10 : ({ initCoro 8 (32 * (d + 1)) none (nestWait d) zmem with
        waiting := false } : Coro).stack + ({ initCoro 8 (32 * (d + 1)) none
        (nestWait d) zmem with waiting := false } : Coro).stack_size + 8 ≤ 2 ^ 64 := by
      show 8 + 32 * (d + 1) + 8 ≤ 2 ^ 64; omega
    obtain ⟨co', hinv, hw, _, _, _⟩ :=
      nestWait_invoke d { initCoro 8 (32 * (d + 1)) none (nestWait d) zmem with waiting := false }
        none (initCoro 8 (32 * (d + 1)) none (nestWait d) zmem).call
        rfl rfl rfl rfl rfl h6 h7 h8 h9 h10
        (by intro o ho; cases ho)
    unfold co_resume
    rw [hcompl, if_neg Bool.false_ne_true, hinv]
    simp [co_waiting, hw]

def siNone : Coro → Nat → Option Coro := fun _ _ => none

def coWdone : Coro := { coW with call := { csNil with state := CORO_STATE_COMPLETED } }

/-- Witness for C4 at concrete inputs: the wait-free empty body, the immediate
swait equation, and a wait nested two sub-calls deep. -/
theorem waiting_flag_semantics_witness :
    allWaitFree coW ∧ co_resume 1 coW = some coWdone ∧
    getCS coW none = some csNil ∧ 32 * (2 + 1) < 2 ^ 32 ∧
    (co_resume 1 { coW with waiting := true } =
       co_resume 1 { coW with waiting := false } ∧
     co_waiting coWdone = false ∧
     (runStmts siNone coW none (Stmt.swait :: []) 0 =
        some (setCS { coW with waiting := true } none { csNil with state := Int.ofNat (0 + 1) }) ∧
      co_waiting (setCS { coW with waiting := true } none { csNil with state := Int.ofNat (0 + 1) }) = true) ∧
     (co_resume (2 + 1) (initCoro 8 (32 * (2 + 1)) none (nestWait 2) zmem)).map
       co_waiting = some true) :=
  ⟨⟨by simp [noWaitL], fun o cs h => nomatch h⟩, rfl, rfl, by decide,
   waiting_flag_semantics 1 coW true false 1 coW coWdone
     ⟨by simp [noWaitL], fun o cs h => nomatch h⟩ rfl
     siNone coW none csNil [] 0 rfl 2 (by decide)⟩

/-- C3: the sub-call protocol of co_call / _co_sub_call.  (A) When the
sub-call completes during the attempt, its stack space is reclaimed by
rewinding the allocator to the sub-call frame's pointer, the parent's
sub-call link is cleared to the none sentinel, and the calling activation
continues past the call site (with the rest of the body, at the next
resumption id) without yielding.  (B) When the sub-call does not complete,
the calling activation itself yields, its resumption id set past the call
site.  (C) On the parent's next invocation, an active sub-call link makes
the begin check re-drive that same sub-call instead of dispatching into the
parent's body at the recorded id. -/
theorem sub_call_protocol
    (siA : Coro → Nat → Option Coro) (coA : Coro) (selfA : Option Nat)
    (csA : CallState) (flA : Option LocalsDecl) (fbA : List Stmt)
    (argA : Option (List Nat × Nat)) (restA : List Stmt) (idxA : Nat)
    (pA : Nat) (co1A : Coro) (subcsA : CallState) (co2A : Coro) (offA : Nat)
    (coLinkA co5A : Coro) (subA : CallState) (co6A : Coro) (cs6A : CallState)
    (hgA : getCS coA selfA = some csA)
    (hallocA : _co_stack_alloc coA sizeof_coro_call_state alignof_coro_call_state = some (pA, co1A))
    (hinitA : _co_init_call_state co1A flA fbA argA = some (subcsA, co2A))
    (hoffA : offA = _co_ptr_to_stack_offset co2A pA)
    (hlinkA : coLinkA = setCS { co2A with frames := fun o => if o = offA then some subcsA else co2A.frames o } selfA { csA with sub_call := offA })
    (hdrvA : siA coLinkA offA = some co5A)
    (hframeA : co5A.frames offA = some subA)
    (hdoneA : subA.state = CORO_STATE_COMPLETED)
    (hrewA : _co_stack_rewind co5A (_co_stack_offset_to_ptr co5A offA) = some co6A)
    (hcs6A : getCS co6A selfA = some cs6A)
    (siB : Coro → Nat → Option Coro) (coB : Coro) (selfB : Option Nat)
    (csB : CallState) (flB : Option LocalsDecl) (fbB : List Stmt)
    (argB : Option (List Nat × Nat)) (restB : List Stmt) (idxB : Nat)
    (pB : Nat) (co1B : Coro) (subcsB : CallState) (co2B : Coro) (offB : Nat)
    (coLinkB co5B : Coro) (subB : CallState) (cs5B : CallState)
    (hgB : getCS coB selfB = some csB)
    (hallocB : _co_stack_alloc coB sizeof_coro_call_state alignof_coro_call_state = some (pB, co1B))
    (hinitB : _co_init_call_state co1B flB fbB argB = some (subcsB, co2B))
    (hoffB : offB = _co_ptr_to_stack_offset co2B pB)
    (hlinkB : coLinkB = setCS { co2B with frames := fun o => if o = offB then some subcsB else co2B.frames o } selfB { csB with sub_call := offB })
    (hdrvB : siB coLinkB offB = some co5B)
    (hframeB : co5B.frames offB = some subB)
    (hndB : ¬subB.state = CORO_STATE_COMPLETED)
    (hcs5B : getCS co5B selfB = some cs5B)
    (fuelC : Nat) (coC : Coro) (selfC : Option Nat) (csC : CallState)
    (co1C : Coro) (cs1C : CallState)
    (hgC : getCS coC selfC = some csC)
    (hlbC : localsBind coC selfC csC = some co1C)
    (hg1C : getCS co1C selfC = some cs1C)
    (hscC : ¬cs1C.sub_call = CO_OFFSET_NONE) :
    (runStmts siA coA selfA (Stmt.scall flA fbA argA :: restA) idxA =
       runStmts siA (setCS co6A selfA { cs6A with sub_call := CO_OFFSET_NONE }) selfA restA (idxA + 1) ∧
     co6A = { co5A with stack_top := _co_stack_offset_to_ptr co5A offA }) ∧
    (runStmts siB coB selfB (Stmt.scall flB fbB argB :: restB) idxB =
       some (setCS co5B selfB { cs5B with state := Int.ofNat (idxB + 1) })) ∧
    (invoke (fuelC + 1) coC selfC =
       match invoke fuelC co1C (some cs1C.sub_call) with
       | none => none
       | some co2 =>
         match co2.frames cs1C.sub_call with
         | none => none
         | some sub =>
           if sub.state = CORO_STATE_COMPLETED then
             match _co_stack_rewind co2 (_co_stack_offset_to_ptr co2 cs1C.sub_call) with
             | none => none
             | some co3 =>
               match getCS co3 selfC with
               | none => none
               | some cs3 =>
                 runStmts (fun c o => invoke fuelC c (some o))
                   (setCS co3 selfC { cs3 with sub_call := CO_OFFSET_NONE })
                   selfC (cs3.func_body.drop cs3.state.toNat) cs3.state.toNat
           else
             some co2) := by
  refine ⟨⟨?_, _co_stack_rewind_some co5A _ co6A hrewA⟩, ?_, ?_⟩
  · subst hoffA
    subst hlinkA
    rw [runStmts_scall_eq siA coA selfA csA flA fbA argA restA idxA pA co1A subcsA co2A hgA hallocA hinitA]
    simp only [hdrvA, hframeA, hdoneA, if_true]
    simp only [hrewA, hcs6A]
  · subst hoffB
    subst hlinkB
    rw [runStmts_scall_eq siB coB selfB csB flB fbB argB restB idxB pB co1B subcsB co2B hgB hallocB hinitB]
    simp only [hdrvB, hframeB]
    rw [if_neg hndB]
    simp only [hcs5B]
  · conv_lhs => unfold invoke
    simp only [hgC, hlbC, hg1C]
    rw [if_neg hscC]

def coP : Coro := { call := csNil, waiting := false, stack_size := 64, stack_top := 8, stack := 8, mem := zmem, frames := fun _ => none }

def coP40 : Coro := { coP with stack_top := 40 }

def csSub0 : CallState := { csNil with sub_call := 0 }

def coLinkW : Coro := setCS { coP40 with frames := fun o => if o = 0 then some csNil else coP40.frames o } none csSub0

def csDone : CallState := { csNil with state := CORO_STATE_COMPLETED }

def co5W : Coro := { coLinkW with frames := fun o => if o = 0 then some csDone else none }

def siW : Coro → Nat → Option Coro := fun _ _ => some co5W

def co6W : Coro := { co5W with stack_top := 8 }

def siWB : Coro → Nat → Option Coro := fun _ _ => some coLinkW

def csClear : CallState := { csSub0 with sub_call := CO_OFFSET_NONE }

def coRewound : Coro := { co5W with stack_top := _co_stack_offset_to_ptr co5W 0 }

def csYield1 : CallState := { csSub0 with state := Int.ofNat (0 + 1) }

def driveW : Option Coro :=
  match invoke 1 coLinkW (some csSub0.sub_call) with
  | none => none
  | some co2 =>
    match co2.frames csSub0.sub_call with
    | none => none
    | some sub =>
      if sub.state = CORO_STATE_COMPLETED then
        match _co_stack_rewind co2 (_co_stack_offset_to_ptr co2 csSub0.sub_call) with
        | none => none
        | some co3 =>
          match getCS co3 none with
          | none => none
          | some cs3 =>
            runStmts (fun c o => invoke 1 c (some o))
              (setCS co3 none { cs3 with sub_call := CO_OFFSET_NONE })
              none (cs3.func_body.drop cs3.state.toNat) cs3.state.toNat
      else
        some co2

/-- Witness for C3 at concrete inputs: a parent at stack 8 making a sub-call
with an empty body — completing sub-invoker (scenario A), suspended
sub-invoker (scenario B), and the re-drive of the linked sub-call (C). -/
theorem sub_call_protocol_witness :
    (runStmts siW coP none (Stmt.scall none [] none :: [Stmt.syield]) 0 =
       runStmts siW (setCS co6W none csClear) none [Stmt.syield] (0 + 1) ∧
     co6W = coRewound) ∧
    (runStmts siWB coP none (Stmt.scall none [] none :: []) 0 =
       some (setCS coLinkW none csYield1)) ∧
    (invoke (1 + 1) coLinkW none = driveW) :=
  sub_call_protocol siW coP none csNil none [] none [Stmt.syield] 0 8 coP40 csNil coP40 0 coLinkW co5W csDone co6W csSub0
    rfl rfl rfl rfl rfl rfl rfl rfl rfl rfl
    siWB coP none csNil none [] none [] 0 8 coP40 csNil coP40 0 coLinkW coLinkW csNil csSub0
    rfl rfl rfl rfl rfl rfl rfl (by decide) rfl
    1 coLinkW none csSub0 coLinkW csSub0 rfl rfl rfl (by decide)
